import Mathlib

/-!
Verification of the VoxelEnigen world/chunk subsystem (src/world.cpp, src/world.h,
src/chunk.h, src/block.cpp).

Shallow embedding conventions:
* C++ `float` arithmetic is embedded as exact rational arithmetic over `ℚ`;
  the numeric literals of the source are taken as exact rationals.
* `(int)` casts of floats truncate toward zero (`ratTrunc`); `(int)std::floor x`
  is `ratFloor`.
* C `int` is embedded as `ℤ` (no overflow is reachable at the studied call sites).
* `hash & 7`, `h & 1`, `h & 2` on non-negative ints are embedded as `% 8`,
  `% 2 = 1`, `/ 2 % 2 = 1`; `(int)floor(x) & 255` (two's complement) is
  `(⌊x⌋ emod 256)`.
* The global `rand()` stream is embedded as an oracle `stream : ℕ → ℕ` together
  with a threaded consumption index (`rand()` values are taken mod 1000 / mod 3
  exactly as in the source).
* `std::unordered_map<std::pair<int,int>, ManagedChunk*>` is embedded as the
  total function `(ℤ × ℤ) → Option ManagedChunk`; `std::set<std::pair<int,int>>`
  of modified chunks as a duplicate-free `List (ℤ × ℤ)` (`List.insert`).
* Chunk dimensions are the fixed constants 16 × 128 × 16 of `chunk.h`.
-/

namespace VoxelEnigen

/-- Truncating rational floor: `ratFloor q = ⌊q⌋`, executable. -/
def ratFloor (q : ℚ) : ℤ := q.num / (q.den : ℤ)

/-- `(int)` cast of a float in C: truncation toward zero. -/
def ratTrunc (q : ℚ) : ℤ := if q < 0 then -(ratFloor (-q)) else ratFloor q

/-! ## Data model (chunk.h; block.h is not part of src/, see `Block`) -/

/-- Modelled from the spec: `block.h` is not under src/; spec §3 gives
`type: enum{AIR, GRASS, DIRT, STONE, WOOD, LEAVES, ...}` (the block types used
by `block.cpp` and `world.cpp`). -/
inductive BlockType
  | AIR
  | GRASS
  | DIRT
  | STONE
  | WOOD
  | LEAVES
deriving DecidableEq

export BlockType (AIR GRASS DIRT STONE WOOD LEAVES)

/-- Modelled from the spec: `axis: enum{X,Y,Z}` of §3, used by `world.cpp` as
`LogAxis::Y`. -/
inductive LogAxis
  | X
  | Y
  | Z
deriving DecidableEq

/-- Modelled from the spec: a block is `{ type, axis }`, default `AIR`
(spec §3); `world.cpp` reads `.type` and writes `.type`/`.axis`. -/
structure Block where
  type : BlockType
  axis : LogAxis
deriving DecidableEq

/-- `enum BiomeType { PLAINS, FOREST }` (world.h). -/
inductive BiomeType
  | PLAINS
  | FOREST
deriving DecidableEq

export BiomeType (PLAINS FOREST)

/-- `struct Chunk` (chunk.h): dense 16×128×16 grid of blocks plus its own
chunk coordinate.  The block vector is embedded as a total function on
local coordinates `x y z` (in-range: `x < 16`, `y < 128`, `z < 16`). -/
@[ext]
structure Chunk where
  chunkX : ℤ
  chunkZ : ℤ
  blocks : ℕ → ℕ → ℕ → Block

/-- `struct ManagedChunk` (chunk.h): a chunk plus its lifecycle flags.  The GPU
mesh (`ChunkMesh`) carries no block data and is not modelled. -/
structure ManagedChunk where
  chunk : Chunk
  terrainGenerated : Bool
  structuresGenerated : Bool
  meshUploaded : Bool
  meshDirty : Bool

/-- `ChunkManager::chunks` (world.h): map from chunk coordinate to the owned
chunk, embedded as a total function into `Option`. -/
def ChunkManager := (ℤ × ℤ) → Option ManagedChunk

/-- Modelled from the spec: the `ManagedChunk(cx,cz)` constructor body lives in
a file not under src/; per the member initializers of chunk.h the flags start
`terrainGenerated = false`, `structuresGenerated = false`, `meshUploaded =
false`, `meshDirty = true`, and per spec §3 a fresh chunk's blocks default to
`AIR` (the axis default is immaterial: spec §3 says axis is meaningful only
for WOOD). -/
def newManagedChunk (k : ℤ × ℤ) : ManagedChunk :=
  { chunk := { chunkX := k.1, chunkZ := k.2, blocks := fun _ _ _ => ⟨AIR, LogAxis.Y⟩ }
    terrainGenerated := false
    structuresGenerated := false
    meshUploaded := false
    meshDirty := true }

/-! ## World utilities (world.cpp) -/

/-- `int getChunkCoord(float worldPos) { return (int)std::floor(worldPos / 16.0f); }`
(world.cpp:86-88). -/
def getChunkCoord (worldPos : ℚ) : ℤ := ratFloor (worldPos / 16)

/-- `void setBlockWorld(...)` (world.cpp:125-143): resolve the owning chunk,
silently return if absent or coordinates out of range, otherwise write the
block, mark the mesh dirty and record the chunk in the modified set. -/
def setBlockWorld (manager : ChunkManager) (worldX y worldZ : ℤ)
    (ty : BlockType) (ax : LogAxis) (modified : Option (List (ℤ × ℤ))) :
    ChunkManager × Option (List (ℤ × ℤ)) :=
  let cx := getChunkCoord (worldX : ℚ)
  let cz := getChunkCoord (worldZ : ℚ)
  match manager (cx, cz) with
  | none => (manager, modified)
  | some mc =>
    let localX := worldX - cx * 16
    let localZ := worldZ - cz * 16
    if localX < 0 ∨ 16 ≤ localX ∨ localZ < 0 ∨ 16 ≤ localZ then (manager, modified)
    else if y < 0 ∨ 128 ≤ y then (manager, modified)
    else
      let mc' : ManagedChunk :=
        { mc with
          chunk := { mc.chunk with
            blocks := fun x' y' z' =>
              if x' = localX.toNat ∧ y' = y.toNat ∧ z' = localZ.toNat then ⟨ty, ax⟩
              else mc.chunk.blocks x' y' z' }
          meshDirty := true }
      (fun k => if k = (cx, cz) then some mc' else manager k,
       modified.map (fun l => l.insert (cx, cz)))

/-- Read a cell's block type through the manager (used to state theorems). -/
def readT (m : ChunkManager) (k : ℤ × ℤ) (x y z : ℕ) : Option BlockType :=
  (m k).map fun mc => (mc.chunk.blocks x y z).type

/-! ## Noise engine (world.cpp:7-67) -/

/-- `float fade(float t)` (world.cpp:21-23). -/
def fade (t : ℚ) : ℚ := t * t * t * (t * (t * 6 - 15) + 10)

/-- `float lerp(float a, float b, float t)` (world.cpp:25-27). -/
def lerp (a b t : ℚ) : ℚ := a + t * (b - a)

/-- `static inline float clampf(float x, float a, float b)` (world.cpp:29-31):
`max(a, min(x, b))`. -/
def clampf (x a b : ℚ) : ℚ := max a (min x b)

/-- `static inline float smoothstepf(float edge0, float edge1, float x)`
(world.cpp:33-36). -/
def smoothstepf (edge0 edge1 x : ℚ) : ℚ :=
  let t := clampf ((x - edge0) / (edge1 - edge0)) 0 1
  t * t * (3 - 2 * t)

/-- `float grad(int hash, float x, float y)` (world.cpp:38-43).  The hash is a
permutation-table entry, hence a non-negative int; `hash & 7` is `% 8`,
`h & 1` is `h % 2 = 1` and `h & 2` is `h / 2 % 2 = 1`. -/
def grad (hash : ℕ) (x y : ℚ) : ℚ :=
  let h := hash % 8
  let u := if h < 4 then x else y
  let v := if h < 4 then y else x
  (if h % 2 = 1 then -u else u) + (if h / 2 % 2 = 1 then -(2 * v) else 2 * v)

/-- `float perlin(float x, float y)` (world.cpp:45-67).  The global 512-entry
table `perm` is passed explicitly; `(int)floor(x) & 255` (two's complement on
a possibly negative int) is `(⌊x⌋ % 256).toNat` with `%` the Euclidean mod. -/
def perlin (perm : ℕ → ℕ) (x y : ℚ) : ℚ :=
  let X := (ratFloor x % 256).toNat
  let Y := (ratFloor y % 256).toNat
  let xf := x - ratFloor x
  let yf := y - ratFloor y
  let u := fade xf
  let v := fade yf
  let aa := perm (X + perm Y)
  let ab := perm (X + perm (Y + 1))
  let ba := perm (X + 1 + perm Y)
  let bb := perm (X + 1 + perm (Y + 1))
  lerp (lerp (grad aa xf yf) (grad ba (xf - 1) yf) u)
       (lerp (grad ab xf (yf - 1)) (grad bb (xf - 1) (yf - 1)) u) v

/-- A valid noise table in the sense of `initPerlin` (world.cpp:9-19): 512
entries below 256, the upper half duplicating the lower (`perm[i] = p[i & 255]`),
and the lower 256 entries a permutation of `0..255` (stated as surjectivity
onto `0..255`, which for a function into `0..255` is equivalent to
bijectivity). -/
def IsPermTable (p : ℕ → ℕ) : Prop :=
  (∀ i, i < 512 → p i < 256) ∧ (∀ i, i < 512 → p i = p (i % 256)) ∧
    (∀ j, j < 256 → ∃ i, i < 256 ∧ p i = j)

/-- A concrete permutation of `0..255` (an involution exchanging six pairs),
used to witness `IsPermTable` and to refute the claimed range of `perlin`. -/
def permBase : ℕ → ℕ := fun i =>
  if i = 0 then 10 else if i = 10 then 0 else
  if i = 1 then 20 else if i = 20 then 1 else
  if i = 4 then 12 else if i = 12 then 4 else
  if i = 6 then 13 else if i = 13 then 6 else
  if i = 5 then 22 else if i = 22 then 5 else
  if i = 3 then 23 else if i = 23 then 3 else i

/-- The 512-entry table built from `permBase` as `initPerlin` does. -/
def permCE : ℕ → ℕ := fun i => permBase (i % 256)

/-! ## Terrain generation (world.cpp:69-212) -/

/-- `BiomeType getBiome(int worldX, int worldZ)` (world.cpp:78-84);
`0.0015f = 3/2000`. -/
def getBiome (p : ℕ → ℕ) (worldX worldZ : ℤ) : BiomeType :=
  let n := (perlin p ((worldX : ℚ) * (3/2000) + 500) ((worldZ : ℚ) * (3/2000) + 500) + 1) / 2
  if n < 1/2 then PLAINS else FOREST

/-- Macro octave of `generateTerrainForChunk` (world.cpp:153-156);
`0.0012f = 3/2500`, amplitude 20. -/
def macroOffset (p : ℕ → ℕ) (wx wz : ℤ) : ℚ :=
  perlin p ((wx : ℚ) * (3/2500)) ((wz : ℚ) * (3/2500)) * 20

/-- Regional octave (world.cpp:158-161); `0.0035f = 7/2000`, amplitude 6. -/
def regionOffset (p : ℕ → ℕ) (wx wz : ℤ) : ℚ :=
  perlin p ((wx : ℚ) * (7/2000) + 37) ((wz : ℚ) * (7/2000) - 91) * 6

/-- Hill mask noise mapped to `[0,1]` (world.cpp:163-165); scale `0.010f`. -/
def mask01 (p : ℕ → ℕ) (wx wz : ℤ) : ℚ :=
  (perlin p ((wx : ℚ) * (1/100) + 200) ((wz : ℚ) * (1/100) + 200) + 1) * (1/2)

/-- `hillMask = smoothstepf(0.62, 0.62+0.08, mask01)` (world.cpp:167-169). -/
def hillMask (p : ℕ → ℕ) (wx wz : ℤ) : ℚ :=
  smoothstepf (31/50) (31/50 + 2/25) (mask01 p wx wz)

/-- Detail octave (world.cpp:171-174); scale `0.05f = 1/20`, amplitude 2. -/
def detailOffset (p : ℕ → ℕ) (wx wz : ℤ) : ℚ :=
  perlin p ((wx : ℚ) * (1/20) - 120) ((wz : ℚ) * (1/20) + 53) * 2

/-- `hillOnlyUp = ((hillN + 1) * 0.5) * hillAmp` (world.cpp:176-179);
scale `0.07f = 7/100`, amplitude 14. -/
def hillOnlyUp (p : ℕ → ℕ) (wx wz : ℤ) : ℚ :=
  (perlin p ((wx : ℚ) * (7/100) + 777) ((wz : ℚ) * (7/100) - 333) + 1) * (1/2) * 14

/-- `hillOffset = hillOnlyUp * hillMask` (world.cpp:180). -/
def hillOffset (p : ℕ → ℕ) (wx wz : ℤ) : ℚ :=
  hillOnlyUp p wx wz * hillMask p wx wz

/-- The float sum whose `(int)` cast is the pre-clamp terrain height
(world.cpp:182): `baseHeight(48) + macro + regional + detail + hill`. -/
def terrainHeightRaw (p : ℕ → ℕ) (wx wz : ℤ) : ℚ :=
  48 + macroOffset p wx wz + regionOffset p wx wz + detailOffset p wx wz + hillOffset p wx wz

/-- The per-column terrain height (world.cpp:182-184): truncate the float sum
to int, then clamp to `chunk.height - 1 = 127` from above. -/
def terrainHeight (p : ℕ → ℕ) (wx wz : ℤ) : ℤ :=
  let h0 := ratTrunc (terrainHeightRaw p wx wz)
  if 128 ≤ h0 then 127 else h0

/-- `localVariationMag = fabs(detailOffset) + hillMask * 0.5 * hillAmp`
(world.cpp:187). -/
def localVariationMag (p : ℕ → ℕ) (wx wz : ℤ) : ℚ :=
  |detailOffset p wx wz| + hillMask p wx wz * (1/2) * 14

/-- `stoneThreshold = int(baseHeight + macroOffset + regionAmp * 0.8f)`
(world.cpp:193). -/
def stoneThreshold (p : ℕ → ℕ) (wx wz : ℤ) : ℤ :=
  ratTrunc (48 + macroOffset p wx wz + 6 * (4/5))

/-- The per-column dirt depth (world.cpp:186-198): base depth in `[2,5]` from
the local variation magnitude, thinned above the stone threshold (C++ `/` on
positive ints, `max(..., 1)`), then clamped by the terrain height. -/
def dirtDepth (p : ℕ → ℕ) (wx wz : ℤ) : ℤ :=
  let d0 := 2 + ratTrunc (clampf (localVariationMag p wx wz / (14 + 2)) 0 1 * 3)
  let st := stoneThreshold p wx wz
  let h := terrainHeight p wx wz
  let d1 := if st < h then max (d0 - (h - st) / 2) 1 else d0
  if h < d1 then h else d1

/-- The block type the column fill loop (world.cpp:200-209) writes at local
height `y`: `y > h → AIR`, `y = h → GRASS`, `y ≥ h - d → DIRT`, else STONE. -/
def terrainBlockType (p : ℕ → ℕ) (wx wz : ℤ) (y : ℕ) : BlockType :=
  if terrainHeight p wx wz < (y : ℤ) then AIR
  else if (y : ℤ) = terrainHeight p wx wz then GRASS
  else if terrainHeight p wx wz - dirtDepth p wx wz ≤ (y : ℤ) then DIRT
  else STONE

/-- `void generateTerrainForChunk(Chunk& chunk)` (world.cpp:145-212): every
in-range cell `(x, y, z)` is overwritten with the column fill block for world
column `(chunkX*16 + x, chunkZ*16 + z)`; `Chunk::setBlock` writes the type
(the axis field is untouched), out-of-range cells are never touched. -/
def generateTerrainForChunk (p : ℕ → ℕ) (c : Chunk) : Chunk :=
  { c with
    blocks := fun x y z =>
      if x < 16 ∧ y < 128 ∧ z < 16 then
        { type := terrainBlockType p (c.chunkX * 16 + x) (c.chunkZ * 16 + z) y
          axis := (c.blocks x y z).axis }
      else c.blocks x y z }

/-! ## Structure generation (world.cpp:214-314) -/

/-- Integer loop range `[lo..hi]` (empty when `hi < lo`). -/
def intRange (lo hi : ℤ) : List ℤ := (List.range (hi + 1 - lo).toNat).map (fun i : ℕ => lo + (i : ℤ))

/-- `setBlockWorld` with the always-present modified set of `generateTrees`
(`&modifiedChunks`). -/
def setBlockWorldS (m : ChunkManager) (s : List (ℤ × ℤ)) (wx y wz : ℤ)
    (ty : BlockType) (ax : LogAxis) : ChunkManager × List (ℤ × ℤ) :=
  let r := setBlockWorld m wx y wz ty ax (some s)
  (r.1, r.2.getD s)

/-- The top-of-column scan of world.cpp:227-230: `y` runs from 127 down and
stops at the first non-AIR block; `-1` when the whole column is AIR. -/
def topNonAir (c : Chunk) (x z : ℕ) : ℤ :=
  match (List.range 128).reverse.find? (fun y => (c.blocks x y z).type != AIR) with
  | some y => (y : ℤ)
  | none => -1

/-- The guarded leaf write of world.cpp:251-261 (and 271-300): resolve the
owning chunk, skip if missing, write LEAVES only if the cell is currently
AIR. -/
def tryPlaceLeaf (m : ChunkManager) (s : List (ℤ × ℤ)) (bx by0 bz : ℤ) :
    ChunkManager × List (ℤ × ℤ) :=
  let cx := getChunkCoord (bx : ℚ)
  let cz := getChunkCoord (bz : ℚ)
  match m (cx, cz) with
  | none => (m, s)
  | some target =>
    let localX := bx - cx * 16
    let localZ := bz - cz * 16
    if (target.chunk.blocks localX.toNat by0.toNat localZ.toNat).type = AIR then
      setBlockWorldS m s bx by0 bz LEAVES LogAxis.Y
    else (m, s)

/-- The trunk loop of world.cpp:237-241.  The C++ `break` on
`y + ty >= height` is equivalent to skipping, because the bound is monotone in
`ty`. -/
def placeTrunk (m : ChunkManager) (s : List (ℤ × ℤ)) (wx wz ysurf ath : ℤ) :
    ChunkManager × List (ℤ × ℤ) :=
  (intRange 1 ath).foldl (fun acc dy =>
    if ysurf + dy < 128 then setBlockWorldS acc.1 acc.2 wx (ysurf + dy) wz WOOD LogAxis.Y
    else acc) (m, s)

/-- The two 5×5 canopy layers of world.cpp:243-264. -/
def canopy (m : ChunkManager) (s : List (ℤ × ℤ)) (wx wz leafStart : ℤ) :
    ChunkManager × List (ℤ × ℤ) :=
  (intRange (-2) 2).foldl (fun acc lx =>
    (intRange (-2) 2).foldl (fun acc2 lz =>
      (intRange 0 1).foldl (fun acc3 ly =>
        let by0 := leafStart + ly
        if by0 < 0 ∨ 128 ≤ by0 then acc3
        else tryPlaceLeaf acc3.1 acc3.2 (wx + lx) by0 (wz + lz)) acc2) acc) (m, s)

/-- The 2-layer topper of world.cpp:266-302: center column plus the four
cardinal neighbors, each guarded by the current-cell-is-AIR test. -/
def topper (m : ChunkManager) (s : List (ℤ × ℤ)) (wx wz baseTopperY : ℤ) :
    ChunkManager × List (ℤ × ℤ) :=
  (intRange 0 1).foldl (fun acc dy =>
    let by0 := baseTopperY + dy
    if by0 < 0 ∨ 128 ≤ by0 then acc
    else
      let acc1 := tryPlaceLeaf acc.1 acc.2 wx by0 wz
      [((1:ℤ), (0:ℤ)), (-1, 0), (0, 1), (0, -1)].foldl
        (fun acc2 d => tryPlaceLeaf acc2.1 acc2.2 (wx + d.1) by0 (wz + d.2)) acc1) (m, s)

/-- One iteration of the column loop of `generateTrees` (world.cpp:217-303).
The C++ body reads the chunk through the reference `chunk`, which aliases the
manager's entry at `key`; the embedding reads it through the manager. -/
def treeColumn (p : ℕ → ℕ) (stream : ℕ → ℕ) (key : ℤ × ℤ) (x z : ℕ)
    (acc : ChunkManager × List (ℤ × ℤ) × ℕ) : ChunkManager × List (ℤ × ℤ) × ℕ :=
  match acc with
  | (m, s, idx) =>
    match m key with
    | none => (m, s, idx)
    | some mc =>
      let wx := mc.chunk.chunkX * 16 + (x : ℤ)
      let wz := mc.chunk.chunkZ * 16 + (z : ℤ)
      let biome := getBiome p wx wz
      let chance : ℚ := if biome = FOREST then 2/25 else 1/200
      let r := stream idx
      if ((r % 1000 : ℕ) : ℚ) / 1000 > chance then (m, s, idx + 1)
      else
        let ytop := topNonAir mc.chunk x z
        if ytop ≤ 0 ∨ (mc.chunk.blocks x ytop.toNat z).type ≠ GRASS then (m, s, idx + 1)
        else
          let trunkHeight : ℤ := 4 + ((stream (idx + 1) % 3 : ℕ) : ℤ)
          let leafStart := ytop + trunkHeight - 2
          let ath := max 1 (trunkHeight - 1)
          let st1 := placeTrunk m s wx wz ytop ath
          let st2 := canopy st1.1 st1.2 wx wz leafStart
          let st3 := topper st2.1 st2.2 wx wz (ytop + ath + 1)
          (st3.1, st3.2, idx + 2)

/-- The re-mesh sweep over the modified set (world.cpp:306-313): block data is
untouched, `meshDirty` is cleared and `meshUploaded` set on every modified
chunk that is loaded. -/
def remeshModified (m : ChunkManager) (s : List (ℤ × ℤ)) : ChunkManager :=
  fun k =>
    if k ∈ s then (m k).map (fun mc => { mc with meshDirty := false, meshUploaded := true })
    else m k

/-- `void generateTrees(Chunk& chunk, ChunkManager* manager)`
(world.cpp:214-314), with the `rand()` stream and its consumption index made
explicit; returns the manager and the next stream index. -/
def generateTrees (p : ℕ → ℕ) (stream : ℕ → ℕ) (key : ℤ × ℤ) (m : ChunkManager)
    (idx : ℕ) : ChunkManager × ℕ :=
  let st := (List.range 16).foldl (fun acc x =>
    (List.range 16).foldl (fun acc2 z => treeColumn p stream key x z acc2) acc)
    (m, ([] : List (ℤ × ℤ)), idx)
  (remeshModified st.1 st.2.1, st.2.2)

/-- The keep-alive test of `updateChunks` (world.cpp:323-330): membership in
the `shouldExist` square, i.e. `k = (camChunkX+dx, camChunkZ+dz)` for some
`dx, dz ∈ [-fullRadius, fullRadius]`. -/
def keepAlive (camChunkX camChunkZ fullRadius : ℤ) (k : ℤ × ℤ) : Prop :=
  -fullRadius ≤ k.1 - camChunkX ∧ k.1 - camChunkX ≤ fullRadius ∧
    -fullRadius ≤ k.2 - camChunkZ ∧ k.2 - camChunkZ ≤ fullRadius

instance (camChunkX camChunkZ fullRadius : ℤ) (k : ℤ × ℤ) :
    Decidable (keepAlive camChunkX camChunkZ fullRadius k) := by
  unfold keepAlive; infer_instance

/-- Steps 2-3 of `updateChunks` (world.cpp:332-350): remove every loaded key
outside the keep-alive square, create a fresh chunk at every keep-alive key
not yet loaded. -/
def removeCreatePass (m : ChunkManager) (camChunkX camChunkZ fullRadius : ℤ) :
    ChunkManager := fun k =>
  if keepAlive camChunkX camChunkZ fullRadius k then some ((m k).getD (newManagedChunk k))
  else none

/-- The terrain pass (world.cpp:352-360): per loaded chunk, generate terrain
once, guarded by `terrainGenerated`; chunks are mutually independent, so the
unordered-map iteration order is immaterial. -/
def terrainPass (p : ℕ → ℕ) (m : ChunkManager) : ChunkManager := fun k =>
  (m k).map (fun mc =>
    if mc.terrainGenerated then mc
    else
      { mc with
        chunk := generateTerrainForChunk p mc.chunk
        terrainGenerated := true
        meshDirty := true })

/-- One candidate of the structure pass (world.cpp:364-378): skip outside the
Euclidean disc, skip missing or already-generated chunks, otherwise run
`generateTrees` and set the flags on the triggering chunk. -/
def structStep (p stream : ℕ → ℕ) (camChunkX camChunkZ radius : ℤ)
    (acc : ChunkManager × ℕ) (dd : ℤ × ℤ) : ChunkManager × ℕ :=
  if radius * radius < dd.1 * dd.1 + dd.2 * dd.2 then acc
  else
    match acc.1 (camChunkX + dd.1, camChunkZ + dd.2) with
    | none => acc
    | some mc =>
      if mc.structuresGenerated then acc
      else
        let r := generateTrees p stream (camChunkX + dd.1, camChunkZ + dd.2) acc.1 acc.2
        (fun k' => if k' = (camChunkX + dd.1, camChunkZ + dd.2) then
            (r.1 k').map (fun mc' =>
              { mc' with structuresGenerated := true, meshDirty := true })
          else r.1 k', r.2)

/-- The structure pass (world.cpp:362-379): the double loop over
`dx, dz ∈ [-radius, radius]`. -/
def structurePass (p stream : ℕ → ℕ) (m : ChunkManager)
    (camChunkX camChunkZ radius : ℤ) (idx : ℕ) : ChunkManager × ℕ :=
  (intRange (-radius) radius).foldl (fun acc dx =>
    (intRange (-radius) radius).foldl
      (fun acc2 dz => structStep p stream camChunkX camChunkZ radius acc2 (dx, dz)) acc)
    (m, idx)

/-- The mesh pass (world.cpp:381-390): every keep-alive chunk that is dirty or
not yet uploaded is re-meshed; only the two mesh flags change. -/
def meshPass (m : ChunkManager) (camChunkX camChunkZ fullRadius : ℤ) :
    ChunkManager := fun k =>
  if keepAlive camChunkX camChunkZ fullRadius k then
    (m k).map (fun mc =>
      if mc.meshUploaded = false ∨ mc.meshDirty then
        { mc with meshDirty := false, meshUploaded := true }
      else mc)
  else m k

/-- `void updateChunks(ChunkManager&, glm::vec3 pos, int radius, unsigned shader)`
(world.cpp:316-391), with the `rand()` stream explicit (`shader` plays no role
in the streaming logic).  Removal/creation, then the terrain, structure and
mesh passes, in the source's order. -/
def updateChunks (p stream : ℕ → ℕ) (m : ChunkManager) (posx posz : ℚ)
    (radius : ℤ) : ChunkManager :=
  let camChunkX := getChunkCoord posx
  let camChunkZ := getChunkCoord posz
  let fullRadius := radius + 1
  let m1 := removeCreatePass m camChunkX camChunkZ fullRadius
  let m2 := terrainPass p m1
  let st := structurePass p stream m2 camChunkX camChunkZ radius 0
  meshPass st.1 camChunkX camChunkZ fullRadius

/-! ## Preservation facts: structure generation never creates or removes
chunks, never turns a cell into AIR, and writes LEAVES only into AIR cells. -/

/-- Read a cell's whole block through the manager. -/
def readB (m : ChunkManager) (k : ℤ × ℤ) (x y z : ℕ) : Option Block :=
  (m k).map fun mc => mc.chunk.blocks x y z

/-- `Pres m m'`: going from manager state `m` to `m'`, the loaded-key set is
unchanged, every cell holding LEAVES in `m'` held AIR or LEAVES in `m`, and
no cell becomes AIR. -/
def Pres (m m' : ChunkManager) : Prop :=
  (∀ k, (m' k).isSome = (m k).isSome) ∧
  ∀ k x y z,
    (readT m' k x y z = some LEAVES →
      readT m k x y z = some AIR ∨ readT m k x y z = some LEAVES) ∧
    (readT m' k x y z = some AIR → readT m k x y z = some AIR)

/-! ## WOOD-cell preservation (leaf placement neither creates nor destroys
WOOD cells), the trunk frame lemma, and column-evaluation lemmas -/

/-- Going from `m` to `m'`, exactly the same cells hold WOOD. -/
def PresW (m m' : ChunkManager) : Prop :=
  ∀ k x y z, readT m' k x y z = some WOOD ↔ readT m k x y z = some WOOD

/-! ### A concrete `generateTrees` run: drawn trunk height 4, but only 3 WOOD
blocks placed (claim C7's counterexample) -/

/-- Column (0,0) has GRASS at height 10 over STONE; everything else is AIR. -/
def ceBlocks : ℕ → ℕ → ℕ → Block := fun x y z =>
  if x = 0 ∧ z = 0 ∧ y = 10 then ⟨GRASS, LogAxis.Y⟩
  else if x = 0 ∧ z = 0 ∧ y < 10 then ⟨STONE, LogAxis.Y⟩
  else ⟨AIR, LogAxis.Y⟩

def ceChunk : Chunk := ⟨0, 0, ceBlocks⟩

def ceMC : ManagedChunk := ⟨ceChunk, true, false, false, true⟩

/-- A manager holding only chunk (0,0). -/
def ceManager : ChunkManager := fun k => if k = (0, 0) then some ceMC else none

/-- The `rand()` oracle: draws 0 (pass the 8% forest chance, trunk `4 + 0 % 3`)
for the first column, 999 (always skip) afterwards. -/
def ceStream : ℕ → ℕ := fun i => if i < 2 then 0 else 999

def ceSt1 : ChunkManager × List (ℤ × ℤ) := placeTrunk ceManager [] 0 0 10 3

def ceSt2 : ChunkManager × List (ℤ × ℤ) := canopy ceSt1.1 ceSt1.2 0 0 12

def ceSt3 : ChunkManager × List (ℤ × ℤ) := topper ceSt2.1 ceSt2.2 0 0 14

theorem ratFloor_eq_floor (q : ℚ) : ratFloor q = ⌊q⌋ := Rat.floor_def.symm

theorem ratTrunc_eq_floor_of_nonneg {q : ℚ} (h : 0 ≤ q) : ratTrunc q = ⌊q⌋ := by
  rw [ratTrunc, if_neg (not_lt.2 h), ratFloor_eq_floor]

theorem ratTrunc_nonneg {q : ℚ} (h : 0 ≤ q) : 0 ≤ ratTrunc q := by
  rw [ratTrunc_eq_floor_of_nonneg h]
  exact Int.floor_nonneg.2 h

/-! ### Arithmetic facts about `getChunkCoord` and local coordinates -/

theorem getChunkCoord_intCast (w : ℤ) : getChunkCoord (w : ℚ) = ⌊(w : ℚ) / 16⌋ := by
  rw [getChunkCoord, ratFloor_eq_floor]

theorem getChunkCoord_int_eq_ediv (w : ℤ) : getChunkCoord (w : ℚ) = w / 16 := by
  rw [getChunkCoord_intCast]
  rw [show ((16 : ℚ)) = ((16 : ℕ) : ℚ) by norm_num]
  exact Rat.floor_intCast_div_natCast w 16

theorem local_coord_bounds (w : ℤ) :
    0 ≤ w - getChunkCoord (w : ℚ) * 16 ∧ w - getChunkCoord (w : ℚ) * 16 < 16 := by
  rw [getChunkCoord_int_eq_ediv]
  constructor
  · have := Int.emod_nonneg w (by norm_num : (16:ℤ) ≠ 0)
    omega
  · have h1 := Int.emod_lt_of_pos w (by norm_num : (0:ℤ) < 16)
    have h2 := Int.ediv_add_emod w 16
    omega

/-- Full characterization of a successful `setBlockWorld` write (shared helper
for the frame and trunk theorems).  When the owning chunk is loaded and `y` is
in range, the local coordinates are automatically in range, exactly the target
cell is rewritten, only the owning chunk's `meshDirty` flag changes, and the
owning key is inserted into the modified set. -/
theorem setBlockWorld_spec (m : ChunkManager) (wx y wz : ℤ) (ty : BlockType)
    (ax : LogAxis) (s : Option (List (ℤ × ℤ))) (mc : ManagedChunk)
    (hm : m (getChunkCoord (wx : ℚ), getChunkCoord (wz : ℚ)) = some mc)
    (hy0 : 0 ≤ y) (hy1 : y < 128) :
    setBlockWorld m wx y wz ty ax s =
      (fun k => if k = (getChunkCoord (wx : ℚ), getChunkCoord (wz : ℚ)) then
          some { mc with
            chunk := { mc.chunk with
              blocks := fun x' y' z' =>
                if x' = (wx - getChunkCoord (wx : ℚ) * 16).toNat ∧ y' = y.toNat ∧
                    z' = (wz - getChunkCoord (wz : ℚ) * 16).toNat then ⟨ty, ax⟩
                else mc.chunk.blocks x' y' z' }
            meshDirty := true }
        else m k,
       s.map (fun l => l.insert (getChunkCoord (wx : ℚ), getChunkCoord (wz : ℚ)))) := by
  have hx := local_coord_bounds wx
  have hz := local_coord_bounds wz
  simp only [setBlockWorld, hm]
  rw [if_neg (by push_neg; omega), if_neg (by push_neg; omega)]

theorem setBlockWorld_miss (m : ChunkManager) (wx y wz : ℤ) (ty : BlockType)
    (ax : LogAxis) (s : Option (List (ℤ × ℤ)))
    (hm : m (getChunkCoord (wx : ℚ), getChunkCoord (wz : ℚ)) = none) :
    setBlockWorld m wx y wz ty ax s = (m, s) := by
  rw [setBlockWorld, hm]

set_option maxRecDepth 20000 in
theorem permBase_involutive : ∀ i, i < 256 → permBase (permBase i) = i := by decide

set_option maxRecDepth 20000 in
theorem permBase_lt : ∀ i, i < 256 → permBase i < 256 := by decide

set_option maxRecDepth 40000 in
theorem permCE_valid : IsPermTable permCE := by
  refine ⟨fun i hi => ?_, fun i hi => ?_, fun j hj => ⟨permBase j, permBase_lt j hj, ?_⟩⟩
  · have := permBase_lt (i % 256) (Nat.mod_lt i (by norm_num))
    simpa [permCE] using this
  · show permBase (i % 256) = permBase (i % 256 % 256)
    rw [Nat.mod_mod_of_dvd i dvd_rfl]
  · show permBase (permBase j % 256) = j
    rw [Nat.mod_eq_of_lt (permBase_lt j hj)]
    exact permBase_involutive j hj

/-! ## Range analysis of `perlin`

The gradients of world.cpp:38-43 are the eight vectors `(±1,±2)`, `(±2,±1)`
of norm `√5`, so `perlin` is *not* confined to `[-1,1]` (claim C5); the sharp
consequence proved here is `|perlin| ≤ 11/7`, which is what the terrain
height bound (C4) needs. -/

theorem fade_shift (t : ℚ) :
    fade t = 1/2 + (t - 1/2) * (15/8 - 5 * (t - 1/2)^2 + 6 * (t - 1/2)^4) := by
  rw [fade]; ring

theorem fade_factor_pos (w : ℚ) : 0 < 15/8 - 5 * w^2 + 6 * w^4 := by
  nlinarith [sq_nonneg (w^2 - 5/12), sq_nonneg w]

theorem fade_nonneg {t : ℚ} (h0 : 0 ≤ t) : 0 ≤ fade t := by
  have h : fade t = t^3 * (6 * t^2 - 15 * t + 10) := by rw [fade]; ring
  rw [h]
  have h1 : 0 < 6 * t^2 - 15 * t + 10 := by nlinarith [sq_nonneg (t - 5/4)]
  positivity

theorem fade_le_one {t : ℚ} (h0 : 0 ≤ t) (h1 : t ≤ 1) : fade t ≤ 1 := by
  have key : 1 - fade t = (1 - t)^3 * (6 * t^2 + 3 * t + 1) := by rw [fade]; ring
  nlinarith [pow_nonneg (by linarith : (0:ℚ) ≤ 1 - t) 3,
    mul_nonneg (pow_nonneg (by linarith : (0:ℚ) ≤ 1 - t) 3)
      (by nlinarith [sq_nonneg t] : (0:ℚ) ≤ 6 * t^2 + 3 * t + 1)]

/-- On each unit cell, every gradient contribution is bounded by
`2·max(|x|,|y|) + min(|x|,|y|)`. -/
theorem grad_abs_le (h : ℕ) (x y : ℚ) :
    |grad h x y| ≤ 2 * max |x| |y| + min |x| |y| := by
  have l1 : ∀ a b : ℚ, |a| + 2 * |b| ≤ 2 * max |a| |b| + min |a| |b| := by
    intro a b
    rcases le_total |a| |b| with hab | hab
    · rw [max_eq_right hab, min_eq_left hab]; linarith
    · rw [max_eq_left hab, min_eq_right hab]; linarith
  have habs : ∀ (b c : Prop) [Decidable b] [Decidable c] (u v : ℚ),
      |(if b then -u else u) + (if c then -(2 * v) else 2 * v)| ≤ |u| + 2 * |v| := by
    intro b c _ _ u v
    have h2v : |(2 : ℚ) * v| = 2 * |v| := by rw [abs_mul]; norm_num
    calc |(if b then -u else u) + (if c then -(2 * v) else 2 * v)|
        ≤ |if b then -u else u| + |if c then -(2 * v) else 2 * v| := abs_add _ _
      _ ≤ |u| + 2 * |v| := by
          split_ifs <;> simp only [abs_neg, h2v] <;> linarith
  rw [grad]
  by_cases hc : h % 8 < 4
  · simp only [if_pos hc]
    exact le_trans (habs _ _ x y) (l1 x y)
  · simp only [if_neg hc]
    refine le_trans (habs _ _ y x) (le_trans (l1 y x) ?_)
    rw [max_comm, min_comm]

/-- Convexity of `lerp`: a weight in `[0,1]` keeps the result inside the given
bounds on the endpoints. -/
theorem lerp_abs_le {p q t P Q : ℚ} (h0 : 0 ≤ t) (h1 : t ≤ 1)
    (hp : |p| ≤ P) (hq : |q| ≤ Q) : |lerp p q t| ≤ (1 - t) * P + t * Q := by
  have hrw : lerp p q t = (1 - t) * p + t * q := by rw [lerp]; ring
  rw [hrw]
  calc |(1 - t) * p + t * q| ≤ |(1 - t) * p| + |t * q| := abs_add _ _
    _ = (1 - t) * |p| + t * |q| := by
        rw [abs_mul, abs_mul, abs_of_nonneg (by linarith : (0:ℚ) ≤ 1 - t),
          abs_of_nonneg h0]
    _ ≤ (1 - t) * P + t * Q := by
        have := abs_nonneg p
        have := abs_nonneg q
        nlinarith

/-- The single-variable estimate behind the `11/7` bound. -/
theorem sextic_bound {σ : ℚ} (h0 : 0 ≤ σ) (h1 : σ ≤ 1/2) :
    σ / 2 - 3 * σ^2 * (15/8 - 5 * σ^2 + 6 * σ^4) ≤ 1/14 := by
  have h14 : 0 ≤ 1/4 - σ^2 := by nlinarith
  nlinarith [sq_nonneg (σ - 2/15), mul_nonneg (sq_nonneg σ) h14, pow_nonneg h0 6]

set_option maxHeartbeats 1000000 in
/-- The bilinear combination of the four per-corner gradient bounds stays
below `11/7` on the whole unit cell. -/
theorem core_bound {a b : ℚ} (ha0 : 0 ≤ a) (ha1 : a ≤ 1) (hb0 : 0 ≤ b) (hb1 : b ≤ 1) :
    (1 - fade b) * ((1 - fade a) * (2 * max a b + min a b)
        + fade a * (2 * max (1 - a) b + min (1 - a) b))
      + fade b * ((1 - fade a) * (2 * max a (1 - b) + min a (1 - b))
        + fade a * (2 * max (1 - a) (1 - b) + min (1 - a) (1 - b))) ≤ 11/7 := by
  have hfa := fade_shift a
  have hfb := fade_shift b
  have hQa := fade_factor_pos (a - 1/2)
  have hQb := fade_factor_pos (b - 1/2)
  have HQa : (0:ℚ) ≤ 15/8 - 5*(a - 1/2)^2 + 6*(a - 1/2)^4 := hQa.le
  have HQb : (0:ℚ) ≤ 15/8 - 5*(b - 1/2)^2 + 6*(b - 1/2)^4 := hQb.le
  rw [hfa, hfb]
  rcases le_total a b with hab | hab <;> rcases le_total (a + b) 1 with hsum | hsum
  · -- a ≤ b, a + b ≤ 1 (so a ≤ 1/2)
    rw [max_eq_right hab, min_eq_left hab,
        max_eq_left (by linarith : b ≤ 1 - a), min_eq_right (by linarith : b ≤ 1 - a),
        max_eq_right (by linarith : a ≤ 1 - b), min_eq_left (by linarith : a ≤ 1 - b),
        max_eq_left (by linarith : 1 - b ≤ 1 - a), min_eq_right (by linarith : 1 - b ≤ 1 - a)]
    have sext := sextic_bound (σ := 1/2 - a) (by linarith) (by linarith)
    have H2 : (0:ℚ) ≤ (b - 1/2)^2 * (15/8 - 5*(b - 1/2)^2 + 6*(b - 1/2)^4) :=
      mul_nonneg (sq_nonneg _) HQb
    have H3 : (0:ℚ) ≤ (1/2 - a) * ((b - 1/2)^2 *
        ((15/8 - 5*(a - 1/2)^2 + 6*(a - 1/2)^4) * (15/8 - 5*(b - 1/2)^2 + 6*(b - 1/2)^4))) :=
      mul_nonneg (by linarith) (mul_nonneg (sq_nonneg _) (mul_nonneg HQa HQb))
    linarith [sext, H2, H3]
  · -- a ≤ b, 1 ≤ a + b (so b ≥ 1/2)
    rw [max_eq_right hab, min_eq_left hab,
        max_eq_right (by linarith : 1 - a ≤ b), min_eq_left (by linarith : 1 - a ≤ b),
        max_eq_left (by linarith : 1 - b ≤ a), min_eq_right (by linarith : 1 - b ≤ a),
        max_eq_left (by linarith : 1 - b ≤ 1 - a), min_eq_right (by linarith : 1 - b ≤ 1 - a)]
    have sext := sextic_bound (σ := b - 1/2) (by linarith) (by linarith)
    have H2 : (0:ℚ) ≤ (a - 1/2)^2 * (15/8 - 5*(a - 1/2)^2 + 6*(a - 1/2)^4) :=
      mul_nonneg (sq_nonneg _) HQa
    have H3 : (0:ℚ) ≤ (b - 1/2) * ((a - 1/2)^2 *
        ((15/8 - 5*(a - 1/2)^2 + 6*(a - 1/2)^4) * (15/8 - 5*(b - 1/2)^2 + 6*(b - 1/2)^4))) :=
      mul_nonneg (by linarith) (mul_nonneg (sq_nonneg _) (mul_nonneg HQa HQb))
    linarith [sext, H2, H3]
  · -- b ≤ a, a + b ≤ 1 (so b ≤ 1/2)
    rw [max_eq_left hab, min_eq_right hab,
        max_eq_left (by linarith : b ≤ 1 - a), min_eq_right (by linarith : b ≤ 1 - a),
        max_eq_right (by linarith : a ≤ 1 - b), min_eq_left (by linarith : a ≤ 1 - b),
        max_eq_right (by linarith : 1 - a ≤ 1 - b), min_eq_left (by linarith : 1 - a ≤ 1 - b)]
    have sext := sextic_bound (σ := 1/2 - b) (by linarith) (by linarith)
    have H2 : (0:ℚ) ≤ (a - 1/2)^2 * (15/8 - 5*(a - 1/2)^2 + 6*(a - 1/2)^4) :=
      mul_nonneg (sq_nonneg _) HQa
    have H3 : (0:ℚ) ≤ (1/2 - b) * ((a - 1/2)^2 *
        ((15/8 - 5*(a - 1/2)^2 + 6*(a - 1/2)^4) * (15/8 - 5*(b - 1/2)^2 + 6*(b - 1/2)^4))) :=
      mul_nonneg (by linarith) (mul_nonneg (sq_nonneg _) (mul_nonneg HQa HQb))
    linarith [sext, H2, H3]
  · -- b ≤ a, 1 ≤ a + b (so a ≥ 1/2)
    rw [max_eq_left hab, min_eq_right hab,
        max_eq_right (by linarith : 1 - a ≤ b), min_eq_left (by linarith : 1 - a ≤ b),
        max_eq_left (by linarith : 1 - b ≤ a), min_eq_right (by linarith : 1 - b ≤ a),
        max_eq_right (by linarith : 1 - a ≤ 1 - b), min_eq_left (by linarith : 1 - a ≤ 1 - b)]
    have sext := sextic_bound (σ := a - 1/2) (by linarith) (by linarith)
    have H2 : (0:ℚ) ≤ (b - 1/2)^2 * (15/8 - 5*(b - 1/2)^2 + 6*(b - 1/2)^4) :=
      mul_nonneg (sq_nonneg _) HQb
    have H3 : (0:ℚ) ≤ (a - 1/2) * ((b - 1/2)^2 *
        ((15/8 - 5*(a - 1/2)^2 + 6*(a - 1/2)^4) * (15/8 - 5*(b - 1/2)^2 + 6*(b - 1/2)^4))) :=
      mul_nonneg (by linarith) (mul_nonneg (sq_nonneg _) (mul_nonneg HQa HQb))
    linarith [sext, H2, H3]

/-- `perlin` is bounded by `11/7` in absolute value, for any noise table. -/
theorem perlin_abs_le (perm : ℕ → ℕ) (x y : ℚ) : |perlin perm x y| ≤ 11/7 := by
  have ha0 : 0 ≤ x - (ratFloor x : ℚ) := by
    rw [ratFloor_eq_floor]; exact sub_nonneg.2 (Int.floor_le x)
  have ha1 : x - (ratFloor x : ℚ) ≤ 1 := by
    rw [ratFloor_eq_floor]; have := Int.lt_floor_add_one x; linarith
  have hb0 : 0 ≤ y - (ratFloor y : ℚ) := by
    rw [ratFloor_eq_floor]; exact sub_nonneg.2 (Int.floor_le y)
  have hb1 : y - (ratFloor y : ℚ) ≤ 1 := by
    rw [ratFloor_eq_floor]; have := Int.lt_floor_add_one y; linarith
  have hu0 := fade_nonneg ha0
  have hu1 := fade_le_one ha0 ha1
  have hv0 := fade_nonneg hb0
  have hv1 := fade_le_one hb0 hb1
  have e1 : |x - (ratFloor x : ℚ)| = x - (ratFloor x : ℚ) := abs_of_nonneg ha0
  have e2 : |x - (ratFloor x : ℚ) - 1| = 1 - (x - (ratFloor x : ℚ)) := by
    rw [abs_of_nonpos (by linarith)]; ring
  have e3 : |y - (ratFloor y : ℚ)| = y - (ratFloor y : ℚ) := abs_of_nonneg hb0
  have e4 : |y - (ratFloor y : ℚ) - 1| = 1 - (y - (ratFloor y : ℚ)) := by
    rw [abs_of_nonpos (by linarith)]; ring
  simp only [perlin]
  refine le_trans (lerp_abs_le hv0 hv1
    (lerp_abs_le hu0 hu1 (grad_abs_le _ _ _) (grad_abs_le _ _ _))
    (lerp_abs_le hu0 hu1 (grad_abs_le _ _ _) (grad_abs_le _ _ _))) ?_
  rw [e1, e2, e3, e4]
  exact core_bound ha0 ha1 hb0 hb1

/-! ### Range facts for the terrain octaves -/

theorem clampf01_mem (x : ℚ) : 0 ≤ clampf x 0 1 ∧ clampf x 0 1 ≤ 1 :=
  ⟨le_max_left 0 _, max_le (by norm_num) (min_le_right x 1)⟩

theorem smoothstepf_mem (e0 e1 x : ℚ) :
    0 ≤ smoothstepf e0 e1 x ∧ smoothstepf e0 e1 x ≤ 1 := by
  have h := clampf01_mem ((x - e0) / (e1 - e0))
  simp only [smoothstepf]
  obtain ⟨h0, h1⟩ := h
  constructor
  · nlinarith
  · nlinarith [mul_nonneg (sq_nonneg (1 - clampf ((x - e0) / (e1 - e0)) 0 1))
      (by linarith : (0:ℚ) ≤ 1 + 2 * clampf ((x - e0) / (e1 - e0)) 0 1)]

theorem hillMask_mem (p : ℕ → ℕ) (wx wz : ℤ) :
    0 ≤ hillMask p wx wz ∧ hillMask p wx wz ≤ 1 := smoothstepf_mem _ _ _

theorem hillOffset_lower (p : ℕ → ℕ) (wx wz : ℤ) : -4 ≤ hillOffset p wx wz := by
  have hn := abs_le.mp (perlin_abs_le p ((wx : ℚ) * (7/100) + 777) ((wz : ℚ) * (7/100) - 333))
  have hup : -4 ≤ hillOnlyUp p wx wz := by rw [hillOnlyUp]; linarith [hn.1]
  have hm := hillMask_mem p wx wz
  rw [hillOffset]
  nlinarith [mul_nonneg (by linarith : (0:ℚ) ≤ hillOnlyUp p wx wz + 4) hm.1]

theorem terrainHeightRaw_nonneg (p : ℕ → ℕ) (wx wz : ℤ) :
    0 ≤ terrainHeightRaw p wx wz := by
  have hmac := abs_le.mp (perlin_abs_le p ((wx : ℚ) * (3/2500)) ((wz : ℚ) * (3/2500)))
  have hreg := abs_le.mp (perlin_abs_le p ((wx : ℚ) * (7/2000) + 37) ((wz : ℚ) * (7/2000) - 91))
  have hdet := abs_le.mp (perlin_abs_le p ((wx : ℚ) * (1/20) - 120) ((wz : ℚ) * (1/20) + 53))
  have hhil := hillOffset_lower p wx wz
  rw [terrainHeightRaw, macroOffset, regionOffset, detailOffset]
  linarith [hmac.1, hreg.1, hdet.1]

theorem terrainHeight_bounds (p : ℕ → ℕ) (wx wz : ℤ) :
    0 ≤ terrainHeight p wx wz ∧ terrainHeight p wx wz ≤ 127 := by
  have h0 := ratTrunc_nonneg (terrainHeightRaw_nonneg p wx wz)
  rw [terrainHeight]
  split_ifs with hc
  · exact ⟨by norm_num, le_refl _⟩
  · exact ⟨h0, by omega⟩

theorem dirt_clamp_bounds (d0 st h : ℤ) (hd0 : 2 ≤ d0) (hh : 0 ≤ h) :
    0 ≤ (if h < (if st < h then max (d0 - (h - st) / 2) 1 else d0) then h
          else (if st < h then max (d0 - (h - st) / 2) 1 else d0)) ∧
      (if h < (if st < h then max (d0 - (h - st) / 2) 1 else d0) then h
        else (if st < h then max (d0 - (h - st) / 2) 1 else d0)) ≤ h := by
  have hM1 : 1 ≤ max (d0 - (h - st) / 2) 1 := le_max_right _ 1
  generalize hM : max (d0 - (h - st) / 2) 1 = M at hM1 ⊢
  constructor <;> split_ifs <;> omega

theorem dirtDepth_bounds (p : ℕ → ℕ) (wx wz : ℤ) :
    0 ≤ dirtDepth p wx wz ∧ dirtDepth p wx wz ≤ terrainHeight p wx wz := by
  have hh := terrainHeight_bounds p wx wz
  have hd0 : 0 ≤ ratTrunc (clampf (localVariationMag p wx wz / (14 + 2)) 0 1 * 3) :=
    ratTrunc_nonneg (mul_nonneg (clampf01_mem _).1 (by norm_num))
  have key := dirt_clamp_bounds (2 + ratTrunc (clampf (localVariationMag p wx wz / (14 + 2)) 0 1 * 3))
    (stoneThreshold p wx wz) (terrainHeight p wx wz) (by omega) hh.1
  simpa only [dirtDepth] using key

/-! ## Claims C2, C3, C4, C5 -/

/-- C2: after `generateTerrainForChunk`, every in-range column scanned
top-down is AIR strictly above the terrain height, GRASS exactly at the
height, DIRT exactly on the `dirtDepth` cells directly below it, and STONE on
everything below that; the height lies in `[0,127]` and the dirt depth in
`[0, height]`, so the column has exactly one GRASS cell, a contiguous DIRT
run of length exactly `dirtDepth`, no STONE above the GRASS, and no gaps. -/
theorem c2_column_wellformed (p : ℕ → ℕ) (c : Chunk) (x z : ℕ)
    (hx : x < 16) (hz : z < 16) :
    0 ≤ terrainHeight p (c.chunkX * 16 + x) (c.chunkZ * 16 + z) ∧
    terrainHeight p (c.chunkX * 16 + x) (c.chunkZ * 16 + z) ≤ 127 ∧
    0 ≤ dirtDepth p (c.chunkX * 16 + x) (c.chunkZ * 16 + z) ∧
    dirtDepth p (c.chunkX * 16 + x) (c.chunkZ * 16 + z) ≤
      terrainHeight p (c.chunkX * 16 + x) (c.chunkZ * 16 + z) ∧
    ∀ y : ℕ, y < 128 →
      (((generateTerrainForChunk p c).blocks x y z).type = AIR ↔
        terrainHeight p (c.chunkX * 16 + x) (c.chunkZ * 16 + z) < (y : ℤ)) ∧
      (((generateTerrainForChunk p c).blocks x y z).type = GRASS ↔
        (y : ℤ) = terrainHeight p (c.chunkX * 16 + x) (c.chunkZ * 16 + z)) ∧
      (((generateTerrainForChunk p c).blocks x y z).type = DIRT ↔
        terrainHeight p (c.chunkX * 16 + x) (c.chunkZ * 16 + z) -
            dirtDepth p (c.chunkX * 16 + x) (c.chunkZ * 16 + z) ≤ (y : ℤ) ∧
          (y : ℤ) < terrainHeight p (c.chunkX * 16 + x) (c.chunkZ * 16 + z)) ∧
      (((generateTerrainForChunk p c).blocks x y z).type = STONE ↔
        (y : ℤ) < terrainHeight p (c.chunkX * 16 + x) (c.chunkZ * 16 + z) -
          dirtDepth p (c.chunkX * 16 + x) (c.chunkZ * 16 + z)) := by
  obtain ⟨hh0, hh1⟩ := terrainHeight_bounds p (c.chunkX * 16 + x) (c.chunkZ * 16 + z)
  obtain ⟨hd0, hd1⟩ := dirtDepth_bounds p (c.chunkX * 16 + x) (c.chunkZ * 16 + z)
  refine ⟨hh0, hh1, hd0, hd1, fun y hy => ?_⟩
  have hb : ((generateTerrainForChunk p c).blocks x y z).type =
      terrainBlockType p (c.chunkX * 16 + x) (c.chunkZ * 16 + z) y := by
    simp only [generateTerrainForChunk]
    rw [if_pos ⟨hx, hy, hz⟩]
  rw [hb]
  simp only [terrainBlockType]
  split_ifs with h1 h2 h3
  · exact ⟨iff_of_true rfl h1, iff_of_false (by decide) (by omega),
      iff_of_false (by decide) (by omega), iff_of_false (by decide) (by omega)⟩
  · exact ⟨iff_of_false (by decide) (by omega), iff_of_true rfl h2,
      iff_of_false (by decide) (by omega), iff_of_false (by decide) (by omega)⟩
  · exact ⟨iff_of_false (by decide) (by omega), iff_of_false (by decide) (by omega),
      iff_of_true rfl ⟨h3, by omega⟩, iff_of_false (by decide) (by omega)⟩
  · exact ⟨iff_of_false (by decide) (by omega), iff_of_false (by decide) (by omega),
      iff_of_false (by decide) (by omega), iff_of_true rfl (by omega)⟩

theorem c2_witness :
    0 ≤ terrainHeight (fun _ => 0)
        ((newManagedChunk (0, 0)).chunk.chunkX * 16 + (0 : ℕ))
        ((newManagedChunk (0, 0)).chunk.chunkZ * 16 + (0 : ℕ)) ∧
    terrainHeight (fun _ => 0) ((newManagedChunk (0, 0)).chunk.chunkX * 16 + (0 : ℕ))
        ((newManagedChunk (0, 0)).chunk.chunkZ * 16 + (0 : ℕ)) ≤ 127 ∧
    0 ≤ dirtDepth (fun _ => 0) ((newManagedChunk (0, 0)).chunk.chunkX * 16 + (0 : ℕ))
        ((newManagedChunk (0, 0)).chunk.chunkZ * 16 + (0 : ℕ)) ∧
    dirtDepth (fun _ => 0) ((newManagedChunk (0, 0)).chunk.chunkX * 16 + (0 : ℕ))
        ((newManagedChunk (0, 0)).chunk.chunkZ * 16 + (0 : ℕ)) ≤
      terrainHeight (fun _ => 0) ((newManagedChunk (0, 0)).chunk.chunkX * 16 + (0 : ℕ))
        ((newManagedChunk (0, 0)).chunk.chunkZ * 16 + (0 : ℕ)) ∧
    ∀ y : ℕ, y < 128 →
      (((generateTerrainForChunk (fun _ => 0) (newManagedChunk (0, 0)).chunk).blocks 0 y 0).type = AIR ↔
        terrainHeight (fun _ => 0) ((newManagedChunk (0, 0)).chunk.chunkX * 16 + (0 : ℕ))
          ((newManagedChunk (0, 0)).chunk.chunkZ * 16 + (0 : ℕ)) < (y : ℤ)) ∧
      (((generateTerrainForChunk (fun _ => 0) (newManagedChunk (0, 0)).chunk).blocks 0 y 0).type = GRASS ↔
        (y : ℤ) = terrainHeight (fun _ => 0) ((newManagedChunk (0, 0)).chunk.chunkX * 16 + (0 : ℕ))
          ((newManagedChunk (0, 0)).chunk.chunkZ * 16 + (0 : ℕ))) ∧
      (((generateTerrainForChunk (fun _ => 0) (newManagedChunk (0, 0)).chunk).blocks 0 y 0).type = DIRT ↔
        terrainHeight (fun _ => 0) ((newManagedChunk (0, 0)).chunk.chunkX * 16 + (0 : ℕ))
            ((newManagedChunk (0, 0)).chunk.chunkZ * 16 + (0 : ℕ)) -
          dirtDepth (fun _ => 0) ((newManagedChunk (0, 0)).chunk.chunkX * 16 + (0 : ℕ))
            ((newManagedChunk (0, 0)).chunk.chunkZ * 16 + (0 : ℕ)) ≤ (y : ℤ) ∧
          (y : ℤ) < terrainHeight (fun _ => 0) ((newManagedChunk (0, 0)).chunk.chunkX * 16 + (0 : ℕ))
            ((newManagedChunk (0, 0)).chunk.chunkZ * 16 + (0 : ℕ))) ∧
      (((generateTerrainForChunk (fun _ => 0) (newManagedChunk (0, 0)).chunk).blocks 0 y 0).type = STONE ↔
        (y : ℤ) < terrainHeight (fun _ => 0) ((newManagedChunk (0, 0)).chunk.chunkX * 16 + (0 : ℕ))
            ((newManagedChunk (0, 0)).chunk.chunkZ * 16 + (0 : ℕ)) -
          dirtDepth (fun _ => 0) ((newManagedChunk (0, 0)).chunk.chunkX * 16 + (0 : ℕ))
            ((newManagedChunk (0, 0)).chunk.chunkZ * 16 + (0 : ℕ))) :=
  c2_column_wellformed (fun _ => 0) (newManagedChunk (0, 0)).chunk 0 0
    (by norm_num) (by norm_num)

/-- C3: for a fixed noise table, `generateTerrainForChunk` is deterministic
(equivalent chunks at the same chunk coordinate generate identical block
grids, types and axes alike) and idempotent (running it twice equals running
it once). -/
theorem c3_deterministic_idempotent (p : ℕ → ℕ) (c c' : Chunk)
    (hX : c.chunkX = c'.chunkX) (hZ : c.chunkZ = c'.chunkZ) (hB : c.blocks = c'.blocks) :
    generateTerrainForChunk p c = generateTerrainForChunk p c' ∧
      generateTerrainForChunk p (generateTerrainForChunk p c) =
        generateTerrainForChunk p c := by
  constructor
  · cases c with
    | mk cx cz bl =>
      cases c' with
      | mk cx' cz' bl' =>
        simp only at hX hZ hB
        subst hX
        subst hZ
        subst hB
        rfl
  · refine Chunk.ext rfl rfl ?_
    funext x y z
    by_cases hin : x < 16 ∧ y < 128 ∧ z < 16
    · simp only [generateTerrainForChunk, if_pos hin]
    · simp only [generateTerrainForChunk, if_neg hin]

theorem c3_witness :
    generateTerrainForChunk (fun _ => 0) (newManagedChunk (0, 0)).chunk =
        generateTerrainForChunk (fun _ => 0) (newManagedChunk (0, 0)).chunk ∧
      generateTerrainForChunk (fun _ => 0)
          (generateTerrainForChunk (fun _ => 0) (newManagedChunk (0, 0)).chunk) =
        generateTerrainForChunk (fun _ => 0) (newManagedChunk (0, 0)).chunk :=
  c3_deterministic_idempotent (fun _ => 0) (newManagedChunk (0, 0)).chunk
    (newManagedChunk (0, 0)).chunk rfl rfl rfl

/-- C4: for every world column and every valid noise table, the computed
terrain height lies in `[0, 127]`; in particular it is never negative. -/
theorem c4_height_bounds (p : ℕ → ℕ) (wx wz : ℤ) (hp : IsPermTable p) :
    0 ≤ terrainHeight p wx wz ∧ terrainHeight p wx wz ≤ 127 :=
  terrainHeight_bounds p wx wz

theorem c4_witness :
    0 ≤ terrainHeight permCE 0 0 ∧ terrainHeight permCE 0 0 ≤ 127 :=
  c4_height_bounds permCE 0 0 permCE_valid

/-- C5 counterexample: for the valid permutation table `permCE`, the input
`(5/2, 1/2)` drives all four corner gradients to value `3/2`, so
`perlin = 3/2 ∉ [-1, 1]` — the claimed range is wrong (the gradient set
`(±1,±2), (±2,±1)` has norm `√5 > 1`). -/
theorem c5_counterexample :
    IsPermTable permCE ∧ perlin permCE (5/2) (1/2) = 3/2 ∧
      ¬(-1 ≤ perlin permCE (5/2) (1/2) ∧ perlin permCE (5/2) (1/2) ≤ 1) := by
  have hval : perlin permCE (5/2) (1/2) = 3/2 := by
    have h1 : ratFloor (5/2) = 2 := by rw [ratFloor_eq_floor]; norm_num
    have h2 : ratFloor (1/2) = 0 := by rw [ratFloor_eq_floor]; norm_num
    simp only [perlin, h1, h2]
    simp [permCE, permBase]
    norm_num [grad, fade, lerp]
  exact ⟨permCE_valid, hval, by rw [hval]; norm_num⟩

/-- C5 (amended): `perlin` is deterministic given a fixed permutation table,
and its range is bounded by `11/7` in absolute value (not by 1: see the
counterexample reaching `3/2`). -/
theorem c5_amended (p : ℕ → ℕ) (x y : ℚ) (hp : IsPermTable p) :
    (-(11/7) ≤ perlin p x y ∧ perlin p x y ≤ 11/7) ∧
      ∀ p' : ℕ → ℕ, (∀ i, p' i = p i) → perlin p' x y = perlin p x y := by
  refine ⟨abs_le.mp (perlin_abs_le p x y), fun p' hp' => ?_⟩
  rw [funext hp']

theorem c5_witness :
    (-(11/7) ≤ perlin permCE 0 0 ∧ perlin permCE 0 0 ≤ 11/7) ∧
      ∀ p' : ℕ → ℕ, (∀ i, p' i = permCE i) → perlin p' 0 0 = perlin permCE 0 0 :=
  c5_amended permCE 0 0 permCE_valid

/-! ## Claims C8, C9, C10 -/

/-- C8: `setBlockWorld` targeting an unloaded chunk is a silent no-op: the
manager (every chunk's blocks and flags) and the modified set are returned
unchanged. -/
theorem c8_missing_chunk_noop (m : ChunkManager) (wx y wz : ℤ) (ty : BlockType)
    (ax : LogAxis) (s : Option (List (ℤ × ℤ)))
    (hm : m (getChunkCoord (wx : ℚ), getChunkCoord (wz : ℚ)) = none) :
    setBlockWorld m wx y wz ty ax s = (m, s) :=
  setBlockWorld_miss m wx y wz ty ax s hm

theorem c8_witness :
    setBlockWorld (fun _ => none) 3 5 (-7) WOOD LogAxis.Y (some []) =
      ((fun _ => none : ChunkManager), some []) :=
  c8_missing_chunk_noop (fun _ => none) 3 5 (-7) WOOD LogAxis.Y (some []) rfl

/-- C9: `getChunkCoord` maps a world position to the floor of its division by
16; in particular `getChunkCoord 31.5 = 1` and `getChunkCoord (-1) = -1`. -/
theorem c9_getChunkCoord :
    getChunkCoord (63/2) = 1 ∧ getChunkCoord (-1) = -1 ∧
      ∀ q : ℚ, getChunkCoord q = ⌊q / 16⌋ :=
  ⟨by rw [getChunkCoord, ratFloor_eq_floor]; norm_num,
   by rw [getChunkCoord, ratFloor_eq_floor]; norm_num,
   fun q => ratFloor_eq_floor _⟩

/-- C10: a `setBlockWorld` write into a loaded chunk with in-range `y` mutates
exactly one cell (setting its type and axis), leaves every other cell of every
loaded chunk unchanged, sets only the owning chunk's `meshDirty` flag (all
other flags and all other chunks untouched), and inserts exactly the owning
chunk's coordinate into the modified set when one is supplied. -/
theorem c10_setBlockWorld_frame (m : ChunkManager) (wx y wz : ℤ)
    (ty : BlockType) (ax : LogAxis) (s : Option (List (ℤ × ℤ)))
    (mc : ManagedChunk)
    (hm : m (getChunkCoord (wx : ℚ), getChunkCoord (wz : ℚ)) = some mc)
    (hy0 : 0 ≤ y) (hy1 : y < 128) :
    ∃ mc', (setBlockWorld m wx y wz ty ax s).1
        (getChunkCoord (wx : ℚ), getChunkCoord (wz : ℚ)) = some mc' ∧
      mc'.chunk.blocks (wx - getChunkCoord (wx : ℚ) * 16).toNat y.toNat
          (wz - getChunkCoord (wz : ℚ) * 16).toNat = ⟨ty, ax⟩ ∧
      (∀ x' y' z', ¬(x' = (wx - getChunkCoord (wx : ℚ) * 16).toNat ∧ y' = y.toNat ∧
          z' = (wz - getChunkCoord (wz : ℚ) * 16).toNat) →
        mc'.chunk.blocks x' y' z' = mc.chunk.blocks x' y' z') ∧
      mc'.meshDirty = true ∧
      mc'.terrainGenerated = mc.terrainGenerated ∧
      mc'.structuresGenerated = mc.structuresGenerated ∧
      mc'.meshUploaded = mc.meshUploaded ∧
      mc'.chunk.chunkX = mc.chunk.chunkX ∧
      mc'.chunk.chunkZ = mc.chunk.chunkZ ∧
      (∀ k, k ≠ (getChunkCoord (wx : ℚ), getChunkCoord (wz : ℚ)) →
        (setBlockWorld m wx y wz ty ax s).1 k = m k) ∧
      (setBlockWorld m wx y wz ty ax s).2 =
        s.map (fun l => l.insert (getChunkCoord (wx : ℚ), getChunkCoord (wz : ℚ))) := by
  rw [setBlockWorld_spec m wx y wz ty ax s mc hm hy0 hy1]
  exact ⟨_, if_pos rfl, if_pos ⟨rfl, rfl, rfl⟩, fun x' y' z' hne => if_neg hne,
    rfl, rfl, rfl, rfl, rfl, rfl, fun k hk => if_neg hk, rfl⟩

theorem c10_witness :
    ∃ mc', (setBlockWorld (fun k => if k = (0, 0) then some (newManagedChunk (0, 0)) else none)
        7 5 11 WOOD LogAxis.Y (some [])).1
        (getChunkCoord ((7 : ℤ) : ℚ), getChunkCoord ((11 : ℤ) : ℚ)) = some mc' ∧
      mc'.chunk.blocks ((7 : ℤ) - getChunkCoord ((7 : ℤ) : ℚ) * 16).toNat (5 : ℤ).toNat
          ((11 : ℤ) - getChunkCoord ((11 : ℤ) : ℚ) * 16).toNat = ⟨WOOD, LogAxis.Y⟩ ∧
      (∀ x' y' z', ¬(x' = ((7 : ℤ) - getChunkCoord ((7 : ℤ) : ℚ) * 16).toNat ∧
          y' = (5 : ℤ).toNat ∧ z' = ((11 : ℤ) - getChunkCoord ((11 : ℤ) : ℚ) * 16).toNat) →
        mc'.chunk.blocks x' y' z' = (newManagedChunk (0, 0)).chunk.blocks x' y' z') ∧
      mc'.meshDirty = true ∧
      mc'.terrainGenerated = (newManagedChunk (0, 0)).terrainGenerated ∧
      mc'.structuresGenerated = (newManagedChunk (0, 0)).structuresGenerated ∧
      mc'.meshUploaded = (newManagedChunk (0, 0)).meshUploaded ∧
      mc'.chunk.chunkX = (newManagedChunk (0, 0)).chunk.chunkX ∧
      mc'.chunk.chunkZ = (newManagedChunk (0, 0)).chunk.chunkZ ∧
      (∀ k, k ≠ (getChunkCoord ((7 : ℤ) : ℚ), getChunkCoord ((11 : ℤ) : ℚ)) →
        (setBlockWorld (fun k => if k = (0, 0) then some (newManagedChunk (0, 0)) else none)
          7 5 11 WOOD LogAxis.Y (some [])).1 k =
          (fun k => if k = (0, 0) then some (newManagedChunk (0, 0)) else none : ChunkManager) k) ∧
      (setBlockWorld (fun k => if k = (0, 0) then some (newManagedChunk (0, 0)) else none)
        7 5 11 WOOD LogAxis.Y (some [])).2 =
        (some []).map (fun l => l.insert (getChunkCoord ((7 : ℤ) : ℚ), getChunkCoord ((11 : ℤ) : ℚ))) :=
  c10_setBlockWorld_frame _ 7 5 11 WOOD LogAxis.Y (some []) (newManagedChunk (0, 0))
    (by rw [getChunkCoord_int_eq_ediv 7, getChunkCoord_int_eq_ediv 11]; rfl)
    (by norm_num) (by norm_num)

theorem isSome_map' {α β : Type} (f : α → β) (o : Option α) :
    (o.map f).isSome = o.isSome := by cases o <;> rfl

theorem pres_refl (m : ChunkManager) : Pres m m :=
  ⟨fun _ => rfl, fun _ _ _ _ => ⟨fun h => Or.inr h, fun h => h⟩⟩

theorem pres_trans {m1 m2 m3 : ChunkManager} (h12 : Pres m1 m2) (h23 : Pres m2 m3) :
    Pres m1 m3 := by
  refine ⟨fun k => (h23.1 k).trans (h12.1 k), fun k x y z => ⟨fun hL => ?_, fun hA => ?_⟩⟩
  · rcases (h23.2 k x y z).1 hL with h | h
    · exact Or.inl ((h12.2 k x y z).2 h)
    · exact (h12.2 k x y z).1 h
  · exact (h12.2 k x y z).2 ((h23.2 k x y z).2 hA)

theorem foldl_pres {α β : Type} (proj : α → ChunkManager) (f : α → β → α)
    (hf : ∀ acc b, Pres (proj acc) (proj (f acc b))) :
    ∀ (l : List β) (acc : α), Pres (proj acc) (proj (List.foldl f acc l)) := by
  intro l
  induction l with
  | nil => exact fun acc => pres_refl _
  | cons b t ih => exact fun acc => pres_trans (hf acc b) (ih (f acc b))

theorem setBlockWorld_dom (m : ChunkManager) (wx yy wz : ℤ) (ty : BlockType)
    (ax : LogAxis) (s : Option (List (ℤ × ℤ))) (k : ℤ × ℤ) :
    ((setBlockWorld m wx yy wz ty ax s).1 k).isSome = (m k).isSome := by
  simp only [setBlockWorld]
  cases hm : m (getChunkCoord (wx : ℚ), getChunkCoord (wz : ℚ)) with
  | none => rfl
  | some mc =>
    split_ifs with h1 h2
    · rfl
    · rfl
    · by_cases hk : k = (getChunkCoord (wx : ℚ), getChunkCoord (wz : ℚ))
      · subst hk; simp [hm]
      · simp [hk]

/-- Case analysis for a `setBlockWorld` write: each cell either keeps its old
type, or ends with the written type, in which case its old type was the old
type of the write's target cell. -/
theorem setBlockWorld_readT_cases (m : ChunkManager) (wx yy wz : ℤ) (ty : BlockType)
    (ax : LogAxis) (s : Option (List (ℤ × ℤ))) (k : ℤ × ℤ) (x' y' z' : ℕ) :
    readT (setBlockWorld m wx yy wz ty ax s).1 k x' y' z' = readT m k x' y' z' ∨
      (readT (setBlockWorld m wx yy wz ty ax s).1 k x' y' z' = some ty ∧
        readT m k x' y' z' =
          readT m (getChunkCoord (wx : ℚ), getChunkCoord (wz : ℚ))
            (wx - getChunkCoord (wx : ℚ) * 16).toNat yy.toNat
            (wz - getChunkCoord (wz : ℚ) * 16).toNat) := by
  simp only [setBlockWorld]
  cases hm : m (getChunkCoord (wx : ℚ), getChunkCoord (wz : ℚ)) with
  | none => exact Or.inl rfl
  | some mc =>
    split_ifs with h1 h2
    · exact Or.inl rfl
    · exact Or.inl rfl
    · by_cases hk : k = (getChunkCoord (wx : ℚ), getChunkCoord (wz : ℚ))
      · subst hk
        by_cases hc : x' = (wx - getChunkCoord (wx : ℚ) * 16).toNat ∧ y' = yy.toNat ∧
            z' = (wz - getChunkCoord (wz : ℚ) * 16).toNat
        · refine Or.inr ⟨by simp [readT, hc], ?_⟩
          obtain ⟨e1, e2, e3⟩ := hc
          subst e1; subst e2; subst e3
          rfl
        · exact Or.inl (by simp [readT, hm, hc])
      · exact Or.inl (by simp [readT, hk])

theorem setBlockWorldS_wood_pres (m : ChunkManager) (s : List (ℤ × ℤ)) (wx yy wz : ℤ) :
    Pres m (setBlockWorldS m s wx yy wz WOOD LogAxis.Y).1 := by
  constructor
  · exact fun k => setBlockWorld_dom m wx yy wz WOOD LogAxis.Y (some s) k
  · intro k x y z
    constructor
    · intro hL
      rcases setBlockWorld_readT_cases m wx yy wz WOOD LogAxis.Y (some s) k x y z with h | ⟨h1, _⟩
      · exact Or.inr (h.symm.trans hL)
      · exact absurd (h1.symm.trans hL) (by simp)
    · intro hA
      rcases setBlockWorld_readT_cases m wx yy wz WOOD LogAxis.Y (some s) k x y z with h | ⟨h1, _⟩
      · exact h.symm.trans hA
      · exact absurd (h1.symm.trans hA) (by simp)

theorem tryPlaceLeaf_pres (m : ChunkManager) (s : List (ℤ × ℤ)) (bx by0 bz : ℤ) :
    Pres m (tryPlaceLeaf m s bx by0 bz).1 := by
  simp only [tryPlaceLeaf]
  cases hm : m (getChunkCoord (bx : ℚ), getChunkCoord (bz : ℚ)) with
  | none => exact pres_refl m
  | some target =>
    dsimp only
    split_ifs with hair
    · constructor
      · exact fun k => setBlockWorld_dom m bx by0 bz LEAVES LogAxis.Y (some s) k
      · intro k x y z
        constructor
        · intro hL
          rcases setBlockWorld_readT_cases m bx by0 bz LEAVES LogAxis.Y (some s) k x y z with h | ⟨_, h2⟩
          · exact Or.inr (h.symm.trans hL)
          · refine Or.inl (h2.trans ?_)
            simp [readT, hm, hair]
        · intro hA
          rcases setBlockWorld_readT_cases m bx by0 bz LEAVES LogAxis.Y (some s) k x y z with h | ⟨h1, _⟩
          · exact h.symm.trans hA
          · exact absurd (h1.symm.trans hA) (by simp)
    · exact pres_refl m

theorem placeTrunk_pres (m : ChunkManager) (s : List (ℤ × ℤ)) (wx wz ysurf ath : ℤ) :
    Pres m (placeTrunk m s wx wz ysurf ath).1 := by
  refine foldl_pres Prod.fst _ (fun acc dy => ?_) (intRange 1 ath) (m, s)
  dsimp only
  split_ifs with h
  · exact setBlockWorldS_wood_pres acc.1 acc.2 wx (ysurf + dy) wz
  · exact pres_refl _

theorem canopy_pres (m : ChunkManager) (s : List (ℤ × ℤ)) (wx wz leafStart : ℤ) :
    Pres m (canopy m s wx wz leafStart).1 := by
  refine foldl_pres Prod.fst _ (fun acc lx => ?_) (intRange (-2) 2) (m, s)
  refine foldl_pres Prod.fst _ (fun acc2 lz => ?_) (intRange (-2) 2) acc
  refine foldl_pres Prod.fst _ (fun acc3 ly => ?_) (intRange 0 1) acc2
  dsimp only
  split_ifs with h
  · exact pres_refl _
  · exact tryPlaceLeaf_pres acc3.1 acc3.2 (wx + lx) (leafStart + ly) (wz + lz)

theorem topper_pres (m : ChunkManager) (s : List (ℤ × ℤ)) (wx wz baseTopperY : ℤ) :
    Pres m (topper m s wx wz baseTopperY).1 := by
  refine foldl_pres Prod.fst _ (fun acc dy => ?_) (intRange 0 1) (m, s)
  dsimp only
  split_ifs with h
  · exact pres_refl _
  · refine pres_trans (tryPlaceLeaf_pres acc.1 acc.2 wx (baseTopperY + dy) wz) ?_
    refine foldl_pres Prod.fst _ (fun acc2 d => ?_) _ _
    exact tryPlaceLeaf_pres acc2.1 acc2.2 (wx + d.1) (baseTopperY + dy) (wz + d.2)

theorem remeshModified_pres (m : ChunkManager) (s : List (ℤ × ℤ)) :
    Pres m (remeshModified m s) := by
  have hread : ∀ k x y z, readT (remeshModified m s) k x y z = readT m k x y z := by
    intro k x y z
    simp only [remeshModified, readT]
    split_ifs with h
    · cases m k <;> rfl
    · rfl
  refine ⟨fun k => ?_, fun k x y z => ⟨fun hL => Or.inr ((hread k x y z).symm.trans hL),
    fun hA => (hread k x y z).symm.trans hA⟩⟩
  simp only [remeshModified]
  split_ifs with h
  · cases m k <;> rfl
  · rfl

theorem treeColumn_pres (p stream : ℕ → ℕ) (key : ℤ × ℤ) (x z : ℕ)
    (acc : ChunkManager × List (ℤ × ℤ) × ℕ) :
    Pres acc.1 (treeColumn p stream key x z acc).1 := by
  obtain ⟨m, s, idx⟩ := acc
  simp only [treeColumn]
  cases hm : m key with
  | none => exact pres_refl m
  | some mc =>
    dsimp only
    split_ifs <;> try exact pres_refl m
    all_goals
      set wx := mc.chunk.chunkX * 16 + (x : ℤ) with hwx
      set wz := mc.chunk.chunkZ * 16 + (z : ℤ) with hwz
      set yt := topNonAir mc.chunk x z with hyt
      set th : ℤ := 4 + ((stream (idx + 1) % 3 : ℕ) : ℤ) with hth
      set ath := max 1 (th - 1) with hath
      set st1 := placeTrunk m s wx wz yt ath with hst1
      set st2 := canopy st1.1 st1.2 wx wz (yt + th - 2) with hst2
      exact pres_trans (placeTrunk_pres m s wx wz yt ath)
        (pres_trans (canopy_pres st1.1 st1.2 wx wz (yt + th - 2))
          (topper_pres st2.1 st2.2 wx wz (yt + ath + 1)))

theorem generateTrees_pres (p stream : ℕ → ℕ) (key : ℤ × ℤ) (m : ChunkManager)
    (idx : ℕ) : Pres m (generateTrees p stream key m idx).1 := by
  simp only [generateTrees]
  have hfold : Pres m ((List.range 16).foldl (fun acc x =>
      (List.range 16).foldl (fun acc2 z => treeColumn p stream key x z acc2) acc)
      (m, ([] : List (ℤ × ℤ)), idx)).1 := by
    refine foldl_pres Prod.fst _ (fun acc x => ?_) (List.range 16) (m, [], idx)
    refine foldl_pres Prod.fst _ (fun acc2 z => ?_) (List.range 16) acc
    exact treeColumn_pres p stream key x z acc2
  exact pres_trans hfold (remeshModified_pres _ _)

/-! ## Streaming pass domain facts and claim C1 -/

theorem removeCreatePass_isSome (m : ChunkManager) (ccx ccz F : ℤ) (k : ℤ × ℤ) :
    ((removeCreatePass m ccx ccz F) k).isSome = true ↔ keepAlive ccx ccz F k := by
  simp only [removeCreatePass]
  split_ifs with h
  · simpa using h
  · simpa using h

theorem terrainPass_isSome (p : ℕ → ℕ) (m : ChunkManager) (k : ℤ × ℤ) :
    ((terrainPass p m) k).isSome = (m k).isSome := by
  simp only [terrainPass]
  cases m k <;> rfl

set_option maxRecDepth 20000 in
theorem structStep_pres (p stream : ℕ → ℕ) (ccx ccz radius : ℤ)
    (acc : ChunkManager × ℕ) (dd : ℤ × ℤ) :
    Pres acc.1 (structStep p stream ccx ccz radius acc dd).1 := by
  simp only [structStep]
  split_ifs with h1
  · exact pres_refl _
  · cases hm : acc.1 (ccx + dd.1, ccz + dd.2) with
    | none => exact pres_refl _
    | some mc =>
      dsimp only
      split_ifs with h2
      · exact pres_refl _
      · have hg := generateTrees_pres p stream (ccx + dd.1, ccz + dd.2) acc.1 acc.2
        generalize hG : generateTrees p stream (ccx + dd.1, ccz + dd.2) acc.1 acc.2 = G
        rw [hG] at hg
        have hr : ∀ k' x y z,
            readT (fun k'' => if k'' = (ccx + dd.1, ccz + dd.2) then
                (G.1 k'').map
                  (fun mc' => { mc' with structuresGenerated := true, meshDirty := true })
              else G.1 k'')
              k' x y z =
            readT G.1 k' x y z := by
          intro k' x y z
          by_cases hk : k' = (ccx + dd.1, ccz + dd.2)
          · subst hk
            simp only [readT, if_pos rfl]
            cases G.1 (ccx + dd.1, ccz + dd.2) <;> rfl
          · simp only [readT, if_neg hk]
        refine ⟨fun k' => ?_, fun k' x y z => ⟨fun hL => (hg.2 k' x y z).1 ?_,
          fun hA => (hg.2 k' x y z).2 ?_⟩⟩
        · dsimp only
          by_cases hk : k' = (ccx + dd.1, ccz + dd.2)
          · subst hk
            rw [if_pos rfl, isSome_map']
            exact hg.1 _
          · rw [if_neg hk]
            exact hg.1 k'
        · refine (?_ : _ = some LEAVES → _) hL
          intro hL2
          exact (hr k' x y z).symm.trans hL2
        · refine (?_ : _ = some AIR → _) hA
          intro hA2
          exact (hr k' x y z).symm.trans hA2

theorem structurePass_pres (p stream : ℕ → ℕ) (m : ChunkManager)
    (ccx ccz radius : ℤ) (idx : ℕ) :
    Pres m (structurePass p stream m ccx ccz radius idx).1 := by
  refine foldl_pres Prod.fst _ (fun acc dx => ?_) (intRange (-radius) radius) (m, idx)
  refine foldl_pres Prod.fst _ (fun acc2 dz => ?_) (intRange (-radius) radius) acc
  exact structStep_pres p stream ccx ccz radius acc2 (dx, dz)

theorem meshPass_isSome (m : ChunkManager) (ccx ccz F : ℤ) (k : ℤ × ℤ) :
    ((meshPass m ccx ccz F) k).isSome = (m k).isSome := by
  simp only [meshPass]
  split_ifs with h
  · exact isSome_map' _ _
  · rfl

/-- C1: after `updateChunks`, a chunk coordinate is loaded exactly when it
lies within Chebyshev distance `radius + 1` of the observer's chunk
coordinate: coordinates outside the padded square are removed, every
coordinate inside is loaded (creation plus the terrain/structure/mesh passes,
which never create or destroy chunks). -/
theorem c1_streaming_set_equivalence (p stream : ℕ → ℕ) (m : ChunkManager)
    (posx posz : ℚ) (radius : ℤ) (hr : 0 ≤ radius) (k : ℤ × ℤ) :
    (updateChunks p stream m posx posz radius k).isSome = true ↔
      max |k.1 - getChunkCoord posx| |k.2 - getChunkCoord posz| ≤ radius + 1 := by
  simp only [updateChunks]
  rw [meshPass_isSome]
  rw [(structurePass_pres p stream
    (terrainPass p (removeCreatePass m (getChunkCoord posx) (getChunkCoord posz) (radius + 1)))
    (getChunkCoord posx) (getChunkCoord posz) radius 0).1 k]
  rw [terrainPass_isSome]
  rw [removeCreatePass_isSome]
  unfold keepAlive
  rw [max_le_iff, abs_le, abs_le]
  tauto

theorem c1_witness :
    (updateChunks (fun _ => 0) (fun _ => 0) (fun _ => none) 0 0 0
        ((0 : ℤ), (0 : ℤ))).isSome = true ↔
      max |((0 : ℤ), (0 : ℤ)).1 - getChunkCoord 0| |((0 : ℤ), (0 : ℤ)).2 - getChunkCoord 0| ≤
        0 + 1 :=
  c1_streaming_set_equivalence (fun _ => 0) (fun _ => 0) (fun _ => none) 0 0 0
    (by norm_num) ((0 : ℤ), (0 : ℤ))

/-- C6: leaves never overwrite: (1) a leaf placement whose target cell is
currently non-AIR leaves the manager and the modified set completely
unchanged; (2) after a leaf placement, any cell holding LEAVES either already
held LEAVES or held AIR immediately prior; (3) the same holds across an
entire `generateTrees` run (WOOD writes cannot produce LEAVES cells, and no
write produces AIR). -/
theorem c6_leaves_no_overwrite (m : ChunkManager) (s : List (ℤ × ℤ))
    (bx by0 bz : ℤ) (p stream : ℕ → ℕ) (key : ℤ × ℤ) (idx : ℕ) :
    (∀ target, m (getChunkCoord (bx : ℚ), getChunkCoord (bz : ℚ)) = some target →
      (target.chunk.blocks (bx - getChunkCoord (bx : ℚ) * 16).toNat by0.toNat
          (bz - getChunkCoord (bz : ℚ) * 16).toNat).type ≠ AIR →
      tryPlaceLeaf m s bx by0 bz = (m, s)) ∧
    (∀ k x y z, readT (tryPlaceLeaf m s bx by0 bz).1 k x y z = some LEAVES →
      readT m k x y z = some AIR ∨ readT m k x y z = some LEAVES) ∧
    (∀ k x y z, readT (generateTrees p stream key m idx).1 k x y z = some LEAVES →
      readT m k x y z = some AIR ∨ readT m k x y z = some LEAVES) := by
  refine ⟨fun target hm hne => ?_, fun k x y z => (tryPlaceLeaf_pres m s bx by0 bz).2 k x y z |>.1,
    fun k x y z => (generateTrees_pres p stream key m idx).2 k x y z |>.1⟩
  unfold tryPlaceLeaf
  dsimp only
  rw [hm]
  dsimp only
  rw [if_neg hne]

theorem presW_refl (m : ChunkManager) : PresW m m := fun _ _ _ _ => Iff.rfl

theorem presW_trans {m1 m2 m3 : ChunkManager} (h12 : PresW m1 m2) (h23 : PresW m2 m3) :
    PresW m1 m3 := fun k x y z => (h23 k x y z).trans (h12 k x y z)

theorem foldl_presW {α β : Type} (proj : α → ChunkManager) (f : α → β → α)
    (hf : ∀ acc b, PresW (proj acc) (proj (f acc b))) :
    ∀ (l : List β) (acc : α), PresW (proj acc) (proj (List.foldl f acc l)) := by
  intro l
  induction l with
  | nil => exact fun acc => presW_refl _
  | cons b t ih => exact fun acc => presW_trans (hf acc b) (ih (f acc b))

theorem tryPlaceLeaf_presW (m : ChunkManager) (s : List (ℤ × ℤ)) (bx by0 bz : ℤ) :
    PresW m (tryPlaceLeaf m s bx by0 bz).1 := by
  simp only [tryPlaceLeaf]
  cases hm : m (getChunkCoord (bx : ℚ), getChunkCoord (bz : ℚ)) with
  | none => exact presW_refl m
  | some target =>
    dsimp only
    split_ifs with hair
    · intro k x y z
      constructor
      · intro hW
        rcases setBlockWorld_readT_cases m bx by0 bz LEAVES LogAxis.Y (some s) k x y z with h | ⟨h1, _⟩
        · exact h.symm.trans hW
        · exact absurd (h1.symm.trans hW) (by simp)
      · intro hW
        rcases setBlockWorld_readT_cases m bx by0 bz LEAVES LogAxis.Y (some s) k x y z with h | ⟨_, h2⟩
        · exact h.trans hW
        · exfalso
          have hAIR : readT m (getChunkCoord (bx : ℚ), getChunkCoord (bz : ℚ))
              (bx - getChunkCoord (bx : ℚ) * 16).toNat by0.toNat
              (bz - getChunkCoord (bz : ℚ) * 16).toNat = some AIR := by
            simp [readT, hm, hair]
          rw [hW] at h2
          rw [hAIR] at h2
          simp at h2
    · exact presW_refl m

theorem canopy_presW (m : ChunkManager) (s : List (ℤ × ℤ)) (wx wz leafStart : ℤ) :
    PresW m (canopy m s wx wz leafStart).1 := by
  refine foldl_presW Prod.fst _ (fun acc lx => ?_) (intRange (-2) 2) (m, s)
  refine foldl_presW Prod.fst _ (fun acc2 lz => ?_) (intRange (-2) 2) acc
  refine foldl_presW Prod.fst _ (fun acc3 ly => ?_) (intRange 0 1) acc2
  dsimp only
  split_ifs with h
  · exact presW_refl _
  · exact tryPlaceLeaf_presW acc3.1 acc3.2 (wx + lx) (leafStart + ly) (wz + lz)

theorem topper_presW (m : ChunkManager) (s : List (ℤ × ℤ)) (wx wz baseTopperY : ℤ) :
    PresW m (topper m s wx wz baseTopperY).1 := by
  refine foldl_presW Prod.fst _ (fun acc dy => ?_) (intRange 0 1) (m, s)
  dsimp only
  split_ifs with h
  · exact presW_refl _
  · refine presW_trans (tryPlaceLeaf_presW acc.1 acc.2 wx (baseTopperY + dy) wz) ?_
    refine foldl_presW Prod.fst _ (fun acc2 d => ?_) _ _
    exact tryPlaceLeaf_presW acc2.1 acc2.2 (wx + d.1) (baseTopperY + dy) (wz + d.2)

theorem remeshModified_readT (m : ChunkManager) (s : List (ℤ × ℤ)) (k : ℤ × ℤ)
    (x y z : ℕ) : readT (remeshModified m s) k x y z = readT m k x y z := by
  simp only [remeshModified, readT]
  split_ifs with h
  · cases m k <;> rfl
  · rfl

theorem readT_eq_readB (m : ChunkManager) (k : ℤ × ℤ) (x y z : ℕ) :
    readT m k x y z = Option.map Block.type (readB m k x y z) := by
  simp only [readT, readB]
  cases m k <;> rfl

theorem mem_intRange {lo hi d : ℤ} : d ∈ intRange lo hi ↔ lo ≤ d ∧ d ≤ hi := by
  simp only [intRange, List.mem_map, List.mem_range]
  constructor
  · rintro ⟨i, hi', rfl⟩
    omega
  · rintro ⟨h1, h2⟩
    exact ⟨(d - lo).toNat, by omega, by omega⟩

theorem setBlockWorldS_spec (m : ChunkManager) (s : List (ℤ × ℤ)) (wx y wz : ℤ)
    (ty : BlockType) (ax : LogAxis) (mc : ManagedChunk)
    (hm : m (getChunkCoord (wx : ℚ), getChunkCoord (wz : ℚ)) = some mc)
    (hy0 : 0 ≤ y) (hy1 : y < 128) :
    setBlockWorldS m s wx y wz ty ax =
      (fun k => if k = (getChunkCoord (wx : ℚ), getChunkCoord (wz : ℚ)) then
          some { mc with
            chunk := { mc.chunk with
              blocks := fun x' y' z' =>
                if x' = (wx - getChunkCoord (wx : ℚ) * 16).toNat ∧ y' = y.toNat ∧
                    z' = (wz - getChunkCoord (wz : ℚ) * 16).toNat then ⟨ty, ax⟩
                else mc.chunk.blocks x' y' z' }
            meshDirty := true }
        else m k,
       s.insert (getChunkCoord (wx : ℚ), getChunkCoord (wz : ℚ))) := by
  simp only [setBlockWorldS, setBlockWorld_spec m wx y wz ty ax (some s) mc hm hy0 hy1]
  rfl

/-- Frame property of the trunk-placement fold over an arbitrary list of
positive offsets: exactly the in-range cells of the trunk column become
`⟨WOOD, Y⟩`, everything else is untouched. -/
theorem trunk_fold_frame (wx wz ysurf : ℤ) (hy : 0 ≤ ysurf) :
    ∀ (L : List ℤ), (∀ d ∈ L, 1 ≤ d) →
    ∀ (m : ChunkManager) (s : List (ℤ × ℤ)) (mc : ManagedChunk),
      m (getChunkCoord (wx : ℚ), getChunkCoord (wz : ℚ)) = some mc →
      ∀ k x y z,
        readB ((L.foldl (fun acc dy =>
            if ysurf + dy < 128 then setBlockWorldS acc.1 acc.2 wx (ysurf + dy) wz WOOD LogAxis.Y
            else acc) (m, s)).1) k x y z =
          if k = (getChunkCoord (wx : ℚ), getChunkCoord (wz : ℚ)) ∧
              x = (wx - getChunkCoord (wx : ℚ) * 16).toNat ∧
              z = (wz - getChunkCoord (wz : ℚ) * 16).toNat ∧
              (∃ d ∈ L, (y : ℤ) = ysurf + d ∧ ysurf + d < 128) then some ⟨WOOD, LogAxis.Y⟩
          else readB m k x y z := by
  intro L
  induction L with
  | nil =>
    intro _ m s mc hm k x y z
    simp
  | cons d t ih =>
    intro hmem m s mc hm k x y z
    have hd1 : 1 ≤ d := hmem d (List.mem_cons_self d t)
    have hmem' : ∀ d' ∈ t, 1 ≤ d' := fun d' hd' => hmem d' (List.mem_cons_of_mem d hd')
    rw [List.foldl_cons]
    by_cases hd : ysurf + d < 128
    · rw [if_pos hd]
      rw [setBlockWorldS_spec m s wx (ysurf + d) wz WOOD LogAxis.Y mc hm (by omega) hd]
      rw [ih hmem' _ _ _ (if_pos rfl)]
      by_cases h1 : k = (getChunkCoord (wx : ℚ), getChunkCoord (wz : ℚ)) ∧
          x = (wx - getChunkCoord (wx : ℚ) * 16).toNat ∧
          z = (wz - getChunkCoord (wz : ℚ) * 16).toNat
      · obtain ⟨hk, hx, hz⟩ := h1
        by_cases h2 : ∃ d' ∈ t, (y : ℤ) = ysurf + d' ∧ ysurf + d' < 128
        · rw [if_pos ⟨hk, hx, hz, h2⟩]
          obtain ⟨d', hd't, hyd', hlt'⟩ := h2
          rw [if_pos ⟨hk, hx, hz, d', List.mem_cons_of_mem d hd't, hyd', hlt'⟩]
        · rw [if_neg (by rintro ⟨_, _, _, hex⟩; exact h2 hex)]
          by_cases h3 : (y : ℤ) = ysurf + d
          · rw [if_pos ⟨hk, hx, hz, d, List.mem_cons_self d t, h3, hd⟩]
            subst hk
            subst hx
            subst hz
            have hyn : y = (ysurf + d).toNat := by omega
            subst hyn
            simp [readB]
          · have hcneg : ¬(k = (getChunkCoord (wx : ℚ), getChunkCoord (wz : ℚ)) ∧
                x = (wx - getChunkCoord (wx : ℚ) * 16).toNat ∧
                z = (wz - getChunkCoord (wz : ℚ) * 16).toNat ∧
                ∃ d' ∈ d :: t, (y : ℤ) = ysurf + d' ∧ ysurf + d' < 128) := by
              rintro ⟨_, _, _, d', hd'mem, hyd', hlt'⟩
              rcases List.mem_cons.mp hd'mem with rfl | hd't
              · exact h3 hyd'
              · exact h2 ⟨d', hd't, hyd', hlt'⟩
            rw [if_neg hcneg]
            subst hk
            have hyn : ¬(x = (wx - getChunkCoord (wx : ℚ) * 16).toNat ∧
                y = (ysurf + d).toNat ∧ z = (wz - getChunkCoord (wz : ℚ) * 16).toNat) := by
              rintro ⟨_, hy2, _⟩
              exact h3 (by omega)
            simp [readB, hm, hyn]
      · rw [if_neg (by rintro ⟨hk, hx, hz, _⟩; exact h1 ⟨hk, hx, hz⟩),
            if_neg (by rintro ⟨hk, hx, hz, _⟩; exact h1 ⟨hk, hx, hz⟩)]
        by_cases hk : k = (getChunkCoord (wx : ℚ), getChunkCoord (wz : ℚ))
        · subst hk
          have hxz : ¬(x = (wx - getChunkCoord (wx : ℚ) * 16).toNat ∧
              y = (ysurf + d).toNat ∧ z = (wz - getChunkCoord (wz : ℚ) * 16).toNat) := by
            rintro ⟨hx, _, hz⟩
            exact h1 ⟨rfl, hx, hz⟩
          simp [readB, hm, hxz]
        · simp only [readB, if_neg hk]
    · rw [if_neg hd]
      rw [ih hmem' m s mc hm]
      by_cases h1 : k = (getChunkCoord (wx : ℚ), getChunkCoord (wz : ℚ)) ∧
          x = (wx - getChunkCoord (wx : ℚ) * 16).toNat ∧
          z = (wz - getChunkCoord (wz : ℚ) * 16).toNat
      · obtain ⟨hk, hx, hz⟩ := h1
        by_cases h2 : ∃ d' ∈ t, (y : ℤ) = ysurf + d' ∧ ysurf + d' < 128
        · obtain ⟨d', hd't, hyd', hlt'⟩ := h2
          rw [if_pos ⟨hk, hx, hz, d', hd't, hyd', hlt'⟩,
              if_pos ⟨hk, hx, hz, d', List.mem_cons_of_mem d hd't, hyd', hlt'⟩]
        · rw [if_neg (by rintro ⟨_, _, _, hex⟩; exact h2 hex)]
          have hcneg2 : ¬(k = (getChunkCoord (wx : ℚ), getChunkCoord (wz : ℚ)) ∧
              x = (wx - getChunkCoord (wx : ℚ) * 16).toNat ∧
              z = (wz - getChunkCoord (wz : ℚ) * 16).toNat ∧
              ∃ d' ∈ d :: t, (y : ℤ) = ysurf + d' ∧ ysurf + d' < 128) := by
            rintro ⟨_, _, _, d', hd'mem, hyd', hlt'⟩
            rcases List.mem_cons.mp hd'mem with rfl | hd't
            · exact hd hlt'
            · exact h2 ⟨d', hd't, hyd', hlt'⟩
          rw [if_neg hcneg2]
      · rw [if_neg (by rintro ⟨hk, hx, hz, _⟩; exact h1 ⟨hk, hx, hz⟩),
            if_neg (by rintro ⟨hk, hx, hz, _⟩; exact h1 ⟨hk, hx, hz⟩)]

/-- Frame characterization of `placeTrunk`: the written cells are exactly the
in-range trunk cells `ysurf + 1 .. ysurf + ath` of the trunk column. -/
theorem placeTrunk_frame (m : ChunkManager) (s : List (ℤ × ℤ)) (wx wz ysurf ath : ℤ)
    (mc : ManagedChunk)
    (hm : m (getChunkCoord (wx : ℚ), getChunkCoord (wz : ℚ)) = some mc)
    (hy : 0 ≤ ysurf) (k : ℤ × ℤ) (x y z : ℕ) :
    readB (placeTrunk m s wx wz ysurf ath).1 k x y z =
      if k = (getChunkCoord (wx : ℚ), getChunkCoord (wz : ℚ)) ∧
          x = (wx - getChunkCoord (wx : ℚ) * 16).toNat ∧
          z = (wz - getChunkCoord (wz : ℚ) * 16).toNat ∧
          (ysurf < (y : ℤ) ∧ (y : ℤ) ≤ ysurf + ath ∧ (y : ℤ) < 128) then some ⟨WOOD, LogAxis.Y⟩
      else readB m k x y z := by
  rw [placeTrunk, trunk_fold_frame wx wz ysurf hy (intRange 1 ath)
    (fun d hd => (mem_intRange.mp hd).1) m s mc hm k x y z]
  refine if_congr (and_congr_right fun _ => and_congr_right fun _ =>
    and_congr_right fun _ => ?_) rfl rfl
  constructor
  · rintro ⟨d, hd, hyd, hlt⟩
    have := mem_intRange.mp hd
    omega
  · rintro ⟨h1, h2, h3⟩
    exact ⟨(y : ℤ) - ysurf, mem_intRange.mpr ⟨by omega, by omega⟩, by omega, by omega⟩

/-! ## Claim C7: trunk height vs. number of WOOD blocks placed -/

/-- C7 (amended): the drawn trunk height is in `[4,6]`, but the trunk loop
places `actualTrunkHeight = max(1, trunkHeight - 1) = trunkHeight - 1` WOOD
blocks (one less than the drawn height), namely exactly the in-range cells
`ysurf+1 .. ysurf + trunkHeight - 1` of the trunk column, each `⟨WOOD, Y⟩`;
every other cell of every chunk is unchanged. -/
theorem c7_amended (m : ChunkManager) (s : List (ℤ × ℤ)) (wx wz ysurf : ℤ) (r : ℕ)
    (mc : ManagedChunk)
    (hm : m (getChunkCoord (wx : ℚ), getChunkCoord (wz : ℚ)) = some mc)
    (hy : 0 ≤ ysurf) :
    4 ≤ 4 + ((r % 3 : ℕ) : ℤ) ∧ 4 + ((r % 3 : ℕ) : ℤ) ≤ 6 ∧
      max 1 (4 + ((r % 3 : ℕ) : ℤ) - 1) = 4 + ((r % 3 : ℕ) : ℤ) - 1 ∧
      ∀ k x y z,
        readB (placeTrunk m s wx wz ysurf (max 1 (4 + ((r % 3 : ℕ) : ℤ) - 1))).1 k x y z =
          if k = (getChunkCoord (wx : ℚ), getChunkCoord (wz : ℚ)) ∧
              x = (wx - getChunkCoord (wx : ℚ) * 16).toNat ∧
              z = (wz - getChunkCoord (wz : ℚ) * 16).toNat ∧
              (ysurf < (y : ℤ) ∧ (y : ℤ) ≤ ysurf + (4 + ((r % 3 : ℕ) : ℤ) - 1) ∧
                (y : ℤ) < 128) then some ⟨WOOD, LogAxis.Y⟩
          else readB m k x y z := by
  have h0 : (0 : ℤ) ≤ ((r % 3 : ℕ) : ℤ) := Int.natCast_nonneg _
  have h3 : ((r % 3 : ℕ) : ℤ) < 3 := by
    have := Nat.mod_lt r (show 0 < 3 by norm_num)
    exact_mod_cast this
  have hmax : max 1 (4 + ((r % 3 : ℕ) : ℤ) - 1) = 4 + ((r % 3 : ℕ) : ℤ) - 1 :=
    max_eq_right (by omega)
  refine ⟨by omega, by omega, hmax, fun k x y z => ?_⟩
  rw [hmax]
  exact placeTrunk_frame m s wx wz ysurf _ mc hm hy k x y z

theorem c7_witness :
    4 ≤ 4 + ((0 % 3 : ℕ) : ℤ) ∧ 4 + ((0 % 3 : ℕ) : ℤ) ≤ 6 ∧
      max 1 (4 + ((0 % 3 : ℕ) : ℤ) - 1) = 4 + ((0 % 3 : ℕ) : ℤ) - 1 ∧
      ∀ k x y z,
        readB (placeTrunk (fun k => if k = (0, 0) then some (newManagedChunk (0, 0)) else none)
            [] 0 0 0 (max 1 (4 + ((0 % 3 : ℕ) : ℤ) - 1))).1 k x y z =
          if k = (getChunkCoord ((0 : ℤ) : ℚ), getChunkCoord ((0 : ℤ) : ℚ)) ∧
              x = ((0 : ℤ) - getChunkCoord ((0 : ℤ) : ℚ) * 16).toNat ∧
              z = ((0 : ℤ) - getChunkCoord ((0 : ℤ) : ℚ) * 16).toNat ∧
              ((0 : ℤ) < (y : ℤ) ∧ (y : ℤ) ≤ (0 : ℤ) + (4 + ((0 % 3 : ℕ) : ℤ) - 1) ∧
                (y : ℤ) < 128) then some ⟨WOOD, LogAxis.Y⟩
          else readB (fun k => if k = (0, 0) then some (newManagedChunk (0, 0)) else none) k x y z :=
  c7_amended (fun k => if k = (0, 0) then some (newManagedChunk (0, 0)) else none)
    [] 0 0 0 0 (newManagedChunk (0, 0))
    (by rw [getChunkCoord_int_eq_ediv 0]; rfl) (le_refl 0)

/-! ### Column-evaluation lemmas for `treeColumn` -/

theorem grad_zero (h : ℕ) : grad h 0 0 = 0 := by
  simp only [grad]
  split_ifs <;> norm_num

/-- `perlin` vanishes at integer sample points (both fractional offsets are 0,
and the selected corner gets weight 1). -/
theorem perlin_intCast (p : ℕ → ℕ) (a b : ℤ) : perlin p (a : ℚ) (b : ℚ) = 0 := by
  have hfa : ratFloor ((a : ℤ) : ℚ) = a := by rw [ratFloor_eq_floor]; exact Int.floor_intCast a
  have hfb : ratFloor ((b : ℤ) : ℚ) = b := by rw [ratFloor_eq_floor]; exact Int.floor_intCast b
  simp only [perlin, hfa, hfb, sub_self]
  rw [show fade 0 = 0 from by norm_num [fade]]
  simp [lerp, grad_zero]

/-- A column whose random draw fails is skipped, consuming one draw. -/
theorem treeColumn_skip1 (p stream : ℕ → ℕ) (key : ℤ × ℤ) (x z : ℕ)
    (m : ChunkManager) (s : List (ℤ × ℤ)) (idx : ℕ) (mc : ManagedChunk)
    (hm : m key = some mc)
    (hch : ((stream idx % 1000 : ℕ) : ℚ) / 1000 >
      (if getBiome p (mc.chunk.chunkX * 16 + (x : ℤ)) (mc.chunk.chunkZ * 16 + (z : ℤ)) = FOREST
       then 2/25 else 1/200)) :
    treeColumn p stream key x z (m, s, idx) = (m, s, idx + 1) := by
  unfold treeColumn
  dsimp only
  rw [hm]
  dsimp only
  rw [if_pos hch]

/-- A column that passes the draw and finds GRASS on top places a tree:
trunk, canopy and topper, consuming two draws. -/
theorem treeColumn_place (p stream : ℕ → ℕ) (key : ℤ × ℤ) (x z : ℕ)
    (m : ChunkManager) (s : List (ℤ × ℤ)) (idx : ℕ) (mc : ManagedChunk)
    (hm : m key = some mc)
    (hch : ¬(((stream idx % 1000 : ℕ) : ℚ) / 1000 >
      (if getBiome p (mc.chunk.chunkX * 16 + (x : ℤ)) (mc.chunk.chunkZ * 16 + (z : ℤ)) = FOREST
       then 2/25 else 1/200)))
    (hgr : ¬(topNonAir mc.chunk x z ≤ 0 ∨
      (mc.chunk.blocks x (topNonAir mc.chunk x z).toNat z).type ≠ GRASS)) :
    treeColumn p stream key x z (m, s, idx) =
      (let wx := mc.chunk.chunkX * 16 + (x : ℤ)
       let wz := mc.chunk.chunkZ * 16 + (z : ℤ)
       let ytop := topNonAir mc.chunk x z
       let trunkHeight : ℤ := 4 + ((stream (idx + 1) % 3 : ℕ) : ℤ)
       let leafStart := ytop + trunkHeight - 2
       let ath := max 1 (trunkHeight - 1)
       let st1 := placeTrunk m s wx wz ytop ath
       let st2 := canopy st1.1 st1.2 wx wz leafStart
       let st3 := topper st2.1 st2.2 wx wz (ytop + ath + 1)
       (st3.1, st3.2, idx + 2)) := by
  unfold treeColumn
  dsimp only
  rw [hm]
  dsimp only
  rw [if_neg hch, if_neg hgr]

/-- With a draw of 999 the skip condition holds in either biome. -/
theorem chance_skip (p : ℕ → ℕ) (wx wz : ℤ) (r : ℕ) (hr : r % 1000 = 999) :
    ((r % 1000 : ℕ) : ℚ) / 1000 >
      (if getBiome p wx wz = FOREST then 2/25 else 1/200) := by
  rw [hr]
  split_ifs <;> norm_num

theorem innerFold_skip (p stream : ℕ → ℕ) (key : ℤ × ℤ) (x : ℕ) :
    ∀ (zs : List ℕ) (m : ChunkManager) (s : List (ℤ × ℤ)) (idx : ℕ)
      (mc : ManagedChunk), m key = some mc →
      (∀ j, idx ≤ j → stream j % 1000 = 999) →
      zs.foldl (fun acc2 z => treeColumn p stream key x z acc2) (m, s, idx) =
        (m, s, idx + zs.length) := by
  intro zs
  induction zs with
  | nil => intro m s idx mc hm h999; simp
  | cons z0 t ih =>
    intro m s idx mc hm h999
    rw [List.foldl_cons,
      treeColumn_skip1 p stream key x z0 m s idx mc hm
        (chance_skip p _ _ _ (h999 idx (le_refl idx))),
      ih m s (idx + 1) mc hm (fun j hj => h999 j (by omega)),
      List.length_cons,
      show idx + 1 + t.length = idx + (t.length + 1) from by omega]

theorem outerFold_skip (p stream : ℕ → ℕ) (key : ℤ × ℤ) :
    ∀ (xs : List ℕ) (m : ChunkManager) (s : List (ℤ × ℤ)) (idx : ℕ)
      (mc : ManagedChunk), m key = some mc →
      (∀ j, idx ≤ j → stream j % 1000 = 999) →
      xs.foldl (fun acc x => (List.range 16).foldl
        (fun acc2 z => treeColumn p stream key x z acc2) acc) (m, s, idx) =
        (m, s, idx + 16 * xs.length) := by
  intro xs
  induction xs with
  | nil => intro m s idx mc hm h999; simp
  | cons x0 t ih =>
    intro m s idx mc hm h999
    rw [List.foldl_cons,
      innerFold_skip p stream key x0 (List.range 16) m s idx mc hm h999,
      List.length_range,
      ih m s (idx + 16) mc hm (fun j hj => h999 j (by omega)),
      List.length_cons,
      show idx + 16 + 16 * t.length = idx + 16 * (t.length + 1) from by omega]

theorem getBiome00 : getBiome permCE 0 0 = FOREST := by
  simp only [getBiome]
  rw [show ((0 : ℤ) : ℚ) * (3/2000) + 500 = ((500 : ℤ) : ℚ) from by norm_num]
  rw [perlin_intCast permCE 500 500]
  norm_num

set_option maxRecDepth 20000 in
theorem ce_topNonAir : topNonAir ceChunk 0 0 = 10 := by decide

theorem ceColumn : treeColumn permCE ceStream (0, 0) 0 0 (ceManager, [], 0) =
    (ceSt3.1, ceSt3.2, 2) := by
  have hm : ceManager (0, 0) = some ceMC := rfl
  have e1 : ceMC.chunk.chunkX * 16 + ((0 : ℕ) : ℤ) = 0 := by norm_num [ceMC, ceChunk]
  have e2 : ceMC.chunk.chunkZ * 16 + ((0 : ℕ) : ℤ) = 0 := by norm_num [ceMC, ceChunk]
  have hch : ¬(((ceStream 0 % 1000 : ℕ) : ℚ) / 1000 >
      (if getBiome permCE (ceMC.chunk.chunkX * 16 + ((0 : ℕ) : ℤ))
          (ceMC.chunk.chunkZ * 16 + ((0 : ℕ) : ℤ)) = FOREST
       then 2/25 else 1/200)) := by
    rw [e1, e2, getBiome00]
    norm_num [ceStream]
  have hgr : ¬(topNonAir ceMC.chunk 0 0 ≤ 0 ∨
      (ceMC.chunk.blocks 0 (topNonAir ceMC.chunk 0 0).toNat 0).type ≠ GRASS) := by
    have ht : topNonAir ceMC.chunk 0 0 = 10 := ce_topNonAir
    rw [ht]
    decide
  rw [treeColumn_place permCE ceStream (0, 0) 0 0 ceManager [] 0 ceMC hm hch hgr]
  show (let wx := ceMC.chunk.chunkX * 16 + ((0 : ℕ) : ℤ)
        let wz := ceMC.chunk.chunkZ * 16 + ((0 : ℕ) : ℤ)
        let ytop := topNonAir ceMC.chunk 0 0
        let trunkHeight : ℤ := 4 + ((ceStream (0 + 1) % 3 : ℕ) : ℤ)
        let leafStart := ytop + trunkHeight - 2
        let ath := max 1 (trunkHeight - 1)
        let st1 := placeTrunk ceManager [] wx wz ytop ath
        let st2 := canopy st1.1 st1.2 wx wz leafStart
        let st3 := topper st2.1 st2.2 wx wz (ytop + ath + 1)
        (st3.1, st3.2, 0 + 2)) = (ceSt3.1, ceSt3.2, 2)
  dsimp only
  rw [e1, e2]
  have hmc : ceMC.chunk = ceChunk := rfl
  rw [hmc, ce_topNonAir]
  rw [show ((ceStream (0 + 1) % 3 : ℕ) : ℤ) = 0 from by norm_num [ceStream]]
  rw [show (1 : ℤ) ⊔ (4 + 0 - 1) = 3 from by decide]
  rw [show (10 : ℤ) + (4 + 0) - 2 = 12 from by decide]
  rw [show (10 : ℤ) + 3 + 1 = 14 from by decide]
  rfl

theorem ce_h999 : ∀ j, 2 ≤ j → ceStream j % 1000 = 999 := by
  intro j hj
  simp only [ceStream]
  rw [if_neg (by omega)]

theorem ceFold :
    (List.range 16).foldl (fun acc x => (List.range 16).foldl
      (fun acc2 z => treeColumn permCE ceStream (0, 0) x z acc2) acc)
      (ceManager, ([] : List (ℤ × ℤ)), (0 : ℕ)) = (ceSt3.1, ceSt3.2, 257) := by
  have hpres : Pres ceManager ceSt3.1 :=
    pres_trans (placeTrunk_pres ceManager [] 0 0 10 3)
      (pres_trans (canopy_pres ceSt1.1 ceSt1.2 0 0 12) (topper_pres ceSt2.1 ceSt2.2 0 0 14))
  have hdom : (ceSt3.1 (0, 0)).isSome = true := by
    rw [hpres.1 (0, 0)]
    rfl
  obtain ⟨mc3, hmc3⟩ := Option.isSome_iff_exists.mp hdom
  rw [show List.range 16 = 0 :: (List.range 15).map Nat.succ from List.range_succ_eq_map 15]
  rw [List.foldl_cons]
  rw [List.foldl_cons]
  rw [ceColumn]
  rw [innerFold_skip permCE ceStream (0, 0) 0 ((List.range 15).map Nat.succ)
    ceSt3.1 ceSt3.2 2 mc3 hmc3 ce_h999]
  rw [show (0 :: (List.range 15).map Nat.succ) = List.range 16 from
    (List.range_succ_eq_map 15).symm]
  rw [outerFold_skip permCE ceStream (0, 0) ((List.range 15).map Nat.succ)
    ceSt3.1 ceSt3.2 _ mc3 hmc3 (fun j hj => ce_h999 j (by omega))]
  rw [List.length_map, List.length_range]

theorem ceGen : generateTrees permCE ceStream (0, 0) ceManager 0 =
    (remeshModified ceSt3.1 ceSt3.2, 257) := by
  unfold generateTrees
  rw [ceFold]

theorem ceReadWood (y : ℕ) :
    readT (generateTrees permCE ceStream (0, 0) ceManager 0).1 (0, 0) 0 y 0 = some WOOD ↔
      11 ≤ y ∧ y ≤ 13 ∧ y < 128 := by
  rw [ceGen]
  rw [remeshModified_readT]
  have hW : PresW ceSt1.1 ceSt3.1 :=
    presW_trans (canopy_presW ceSt1.1 ceSt1.2 0 0 12) (topper_presW ceSt2.1 ceSt2.2 0 0 14)
  rw [hW (0, 0) 0 y 0]
  have hgcc : getChunkCoord ((0 : ℤ) : ℚ) = 0 := by
    rw [getChunkCoord_int_eq_ediv]
    rfl
  have hm0 : ceManager (getChunkCoord ((0 : ℤ) : ℚ), getChunkCoord ((0 : ℤ) : ℚ)) = some ceMC := by
    rw [hgcc]
    rfl
  have hf := placeTrunk_frame ceManager [] 0 0 10 3 ceMC hm0 (by norm_num) (0, 0) 0 y 0
  rw [readT_eq_readB]
  simp only [ceSt1]
  rw [hf]
  rw [hgcc] at hf ⊢
  by_cases hy : (10 : ℤ) < (y : ℤ) ∧ (y : ℤ) ≤ 10 + 3 ∧ (y : ℤ) < 128
  · rw [if_pos ⟨by simp, by simp, by simp, hy⟩]
    simp only [Option.map_some']
    exact iff_of_true trivial (by omega)
  · rw [if_neg (by rintro ⟨_, _, _, hnum⟩; exact hy hnum)]
    have hnb : (ceBlocks 0 y 0).type ≠ WOOD := by
      unfold ceBlocks
      split_ifs <;> simp
    refine iff_of_false ?_ (by omega)
    intro hcontra
    rw [show readB ceManager (0, 0) 0 y 0 = some (ceBlocks 0 y 0) from rfl] at hcontra
    simp only [Option.map_some'] at hcontra
    exact hnb (Option.some.inj hcontra)

set_option maxRecDepth 20000 in
/-- C7 counterexample: on this concrete run `generateTrees` draws trunk height
`4 + rand() % 3 = 4` for the tree in column (0,0) (GRASS top at height 10),
but writes exactly 3 WOOD blocks (at heights 11, 12, 13): the number of WOOD
blocks placed is `trunkHeight - 1`, not `trunkHeight`. -/
theorem c7_counterexample :
    4 + ((ceStream 1 % 3 : ℕ) : ℤ) = 4 ∧
    (List.range 128).countP (fun y =>
      decide (readT (generateTrees permCE ceStream (0, 0) ceManager 0).1 (0, 0) 0 y 0 =
        some WOOD)) = 3 ∧
    (3 : ℤ) ≠ 4 + ((ceStream 1 % 3 : ℕ) : ℤ) := by
  refine ⟨by norm_num [ceStream], ?_, by norm_num [ceStream]⟩
  have hcong : ∀ y ∈ List.range 128,
      ((decide (readT (generateTrees permCE ceStream (0, 0) ceManager 0).1 (0, 0) 0 y 0 =
        some WOOD)) = true ↔ decide (11 ≤ y ∧ y ≤ 13 ∧ y < 128) = true) := by
    intro y _
    simp only [decide_eq_true_eq]
    exact ceReadWood y
  rw [List.countP_congr hcong]
  decide

end VoxelEnigen
